import Mathlib

/-!
Verification development for the expression engine and dirty-checking scope
of the angular-es6 repository.

The embedding follows `src/parse.js` (lexer, AST builder, AST analyses,
evaluator builder, sandbox guards) and `src/filter.js` (filter registry
interface).  The scope (`digest`) is not present in the sources, only its
test suite; the digest model further below is therefore written from the
specification text.

Modelling conventions, fixed once here:
* JavaScript strings are embedded as `String` (token texts, identifier
  names) or as `List Char` (lexer input, scanned left to right).
* JavaScript numbers are embedded as exact rationals extended with the
  special values NaN and the two infinities; double rounding is not
  modelled (no claim depends on it).
* JavaScript objects are embedded as finite association lists in insertion
  order; object identity is embedded as structural equality, which is
  faithful on the programs appearing in the theorems below (none of them
  alias or mutate a shared object through two references).
* Fallible code returns `Except JsError`.
-/

/-- Error domain.  The source throws plain `Error` objects; the constructor
records which subsystem raised it (lexer and parser throws, runtime
`TypeError`s of the host language, sandbox guard throws, digest TTL). -/
inductive JsError where
  | lexError (msg : String)
  | parseError (msg : String)
  | compileError (msg : String)
  | typeError (msg : String)
  | securityError (msg : String)
  | digestError (msg : String)
deriving DecidableEq

/-- JavaScript number: an exact rational, NaN, or a signed infinity. -/
inductive JSNum where
  | val (q : Rat)
  | nan
  | inf
  | ninf
deriving DecidableEq

/-- JavaScript runtime value.  Functions are opaque host values identified
by an index into a function table supplied at evaluation time. -/
inductive JSVal where
  | undef
  | null
  | bool (b : Bool)
  | num (n : JSNum)
  | str (s : String)
  | arr (elems : List JSVal)
  | obj (props : List (String × JSVal))
  | fn (id : Nat)

mutual

/-- Structural equality on embedded values (stands in for JavaScript
reference identity on objects, see the conventions above). -/
def jsEqB : JSVal → JSVal → Bool
  | .undef, .undef => true
  | .null, .null => true
  | .bool a, .bool b => a == b
  | .num a, .num b => a == b
  | .str a, .str b => a == b
  | .arr a, .arr b => jsEqListB a b
  | .obj a, .obj b => jsEqPropsB a b
  | .fn a, .fn b => a == b
  | _, _ => false

def jsEqListB : List JSVal → List JSVal → Bool
  | [], [] => true
  | a :: as, b :: bs => jsEqB a b && jsEqListB as bs
  | _, _ => false

def jsEqPropsB : List (String × JSVal) → List (String × JSVal) → Bool
  | [], [] => true
  | (k1, v1) :: as, (k2, v2) :: bs => k1 == k2 && jsEqB v1 v2 && jsEqPropsB as bs
  | _, _ => false

end

/-- JavaScript truthiness. -/
def truthy : JSVal → Bool
  | .undef => false
  | .null => false
  | .bool b => b
  | .num n =>
    match n with
    | .val q => !(q == 0)
    | .nan => false
    | .inf => true
    | .ninf => true
  | .str s => !(s == "")
  | .arr _ => true
  | .obj _ => true
  | .fn _ => true

/-- Own-property lookup on an association list, first match wins. -/
def propLookup (props : List (String × JSVal)) (k : String) : Option JSVal :=
  match props with
  | [] => none
  | (k1, v) :: rest => if k1 == k then some v else propLookup rest k

/-- Decimal-digit string for array index access. -/
def strToIndex (s : String) : Option Nat :=
  if s ≠ "" && s.toList.all (fun c => '0' ≤ c && c ≤ '9') then some s.toNat! else none

/-- Property read, `undefined` when absent.  Arrays expose `length` and
their numeric indices; property reads on primitives yield `undefined`
(the boxed own properties of host primitives are not modelled). -/
def getProp (v : JSVal) (k : String) : JSVal :=
  match v with
  | .obj props => (propLookup props k).getD .undef
  | .arr els =>
    if k == "length" then .num (.val els.length)
    else match strToIndex k with
      | some i => (els.get? i).getD .undef
      | none => .undef
  | _ => JSVal.undef

/-- Property read as executed by the generated code on an arbitrary base:
reading a member of `undefined` or `null` throws a `TypeError`. -/
def getPropE (v : JSVal) (k : String) : Except JsError JSVal :=
  match v with
  | .undef => .error (.typeError ("Cannot read property " ++ k ++ " of undefined"))
  | .null => .error (.typeError ("Cannot read property " ++ k ++ " of null"))
  | _ => .ok (getProp v k)

/-- The hasOwnProperty test: own-key test on objects, index or `length` test on
arrays, `false` on every primitive. -/
def hasOwn (v : JSVal) (k : String) : Bool :=
  match v with
  | .obj props => (propLookup props k).isSome
  | .arr els =>
    if k == "length" then true
    else match strToIndex k with
      | some i => i < els.length
      | none => false
  | _ => false

/-- Update or append a key in an association list (JavaScript assignment
keeps insertion order and appends fresh keys). -/
def propStore (props : List (String × JSVal)) (k : String) (v : JSVal) :
    List (String × JSVal) :=
  match props with
  | [] => [(k, v)]
  | (k1, v1) :: rest =>
    if k1 == k then (k1, v) :: rest else (k1, v1) :: propStore rest k v

/-! ## Number and string coercions

The generated code applies the host operators directly; the embeddings
below follow the ECMAScript coercion algorithms on the modelled value
domain (exact rationals, so no double rounding; hexadecimal `Number`
input is not modelled as no expression reaches it). -/

/-- Characters trimmed by `Number(string)` conversion. -/
def isJsSpace (c : Char) : Bool :=
  c == ' ' || c == '\t' || c == '\n' || c == '\r' || c == '\x0b' || c == '\x0c' || c == ' '

def digitVal (c : Char) : Nat := c.toNat - '0'.toNat

def isDigitCh (c : Char) : Bool := '0' ≤ c && c ≤ '9'

def digitsToNat (cs : List Char) : Nat :=
  cs.foldl (fun acc c => acc * 10 + digitVal c) 0

/-- Parse an unsigned decimal mantissa `digits [. digits]`; at least one
digit overall. Returns the value and the unconsumed rest. -/
def parseMantissa (cs : List Char) : Option (Rat × List Char) :=
  let ip := cs.takeWhile isDigitCh
  let r1 := cs.dropWhile isDigitCh
  match r1 with
  | '.' :: r2 =>
    let fp := r2.takeWhile isDigitCh
    let r3 := r2.dropWhile isDigitCh
    if ip.isEmpty && fp.isEmpty then none
    else some ((digitsToNat ip : Rat) + (digitsToNat fp : Rat) / ((10 : Rat) ^ fp.length), r3)
  | _ => if ip.isEmpty then none else some ((digitsToNat ip : Rat), r1)

/-- Parse an optional exponent part `e|E [+|-] digits`. -/
def parseExponent (cs : List Char) : Option (Int × List Char) :=
  match cs with
  | c :: r1 =>
    if c == 'e' || c == 'E' then
      let (sgn, r2) : Int × List Char :=
        match r1 with
        | '+' :: r => (1, r)
        | '-' :: r => (-1, r)
        | r => (1, r)
      let ds := r2.takeWhile isDigitCh
      let r3 := r2.dropWhile isDigitCh
      if ds.isEmpty then none else some (sgn * digitsToNat ds, r3)
    else some (0, cs)
  | [] => some (0, [])

def ratPow10 (q : Rat) (e : Int) : Rat :=
  if 0 ≤ e then q * (10 : Rat) ^ e.toNat else q / (10 : Rat) ^ (-e).toNat

/-- Conversion of a string to a number, as done by lodash toNumber on the
lexer output and by the implicit coercions. -/
def strToNum (s : String) : JSNum :=
  let t := (s.toList.dropWhile isJsSpace).reverse.dropWhile isJsSpace |>.reverse
  match t with
  | [] => .val 0
  | _ =>
    let (sgn, body) : Rat × List Char :=
      match t with
      | '+' :: r => (1, r)
      | '-' :: r => (-1, r)
      | r => (1, r)
    if body == "Infinity".toList then (if sgn == 1 then .inf else .ninf)
    else
      match parseMantissa body with
      | none => .nan
      | some (m, r1) =>
        match parseExponent r1 with
        | none => .nan
        | some (e, r2) => if r2.isEmpty then .val (sgn * ratPow10 m e) else .nan

/-- Decimal digits of a proper fraction `num/den`, truncated at `fuel`
digits (exact for every value a theorem below evaluates). -/
def fracDigitStr (num den : Nat) : Nat → String
  | 0 => ""
  | fuel + 1 =>
    if num == 0 then ""
    else
      let d := num * 10 / den
      let r := num * 10 % den
      (Char.ofNat ('0'.toNat + d)).toString ++ fracDigitStr r den fuel

def jsNumToString (n : JSNum) : String :=
  match n with
  | .nan => "NaN"
  | .inf => "Infinity"
  | .ninf => "-Infinity"
  | .val q =>
    let sign := if q < 0 then "-" else ""
    let an : Nat := q.num.natAbs
    let d : Nat := q.den
    if d == 1 then sign ++ toString an
    else sign ++ toString (an / d) ++ "." ++ fracDigitStr (an % d) d 20

mutual

/-- Conversion of a value to a string, on the modelled domain (functions render as a fixed
placeholder, their source text is not modelled). -/
def jsToString : JSVal → String
  | .undef => "undefined"
  | .null => "null"
  | .bool b => if b then "true" else "false"
  | .num n => jsNumToString n
  | .str s => s
  | .arr els => jsArrJoin els
  | .obj _ => "[object Object]"
  | .fn _ => "function"

/-- Array join with comma separators: `undefined` and `null` elements render
as the empty string. -/
def jsArrJoin : List JSVal → String
  | [] => ""
  | [e] =>
    match e with
    | .undef => ""
    | .null => ""
    | v => jsToString v
  | e :: rest =>
    (match e with
     | .undef => ""
     | .null => ""
     | v => jsToString v) ++ "," ++ jsArrJoin rest

end

/-- ToPrimitive with default hint: objects, arrays and functions
convert through their string form. -/
def toPrimitiveV (v : JSVal) : JSVal :=
  match v with
  | .obj _ => .str (jsToString v)
  | .arr _ => .str (jsToString v)
  | .fn _ => .str (jsToString v)
  | p => p

/-- ToNumber on the modelled value domain. -/
def jsToNumber (v : JSVal) : JSNum :=
  match v with
  | .undef => .nan
  | .null => .val 0
  | .bool b => .val (if b then 1 else 0)
  | .num n => n
  | .str s => strToNum s
  | .arr _ => strToNum (jsToString v)
  | .obj _ => .nan
  | .fn _ => .nan

/-! ## Host operators applied by the generated code -/

/-- Numeric equality as used by both equality operators on numbers:
NaN compares unequal to everything, including itself. -/
def jsNumEq (a b : JSNum) : Bool :=
  match a, b with
  | .nan, _ => false
  | _, .nan => false
  | x, y => x == y

/-- Strict equality.  On objects, arrays and functions the source
compares references; under the structural embedding this is structural
equality (see the conventions at the top). -/
def jsStrictEqB (a b : JSVal) : Bool :=
  match a, b with
  | .num x, .num y => jsNumEq x y
  | x, y => jsEqB x y

/-- One rewriting step of the abstract (loose) equality algorithm. -/
def looseStep (fuel : Nat) (rec : JSVal → JSVal → Bool) (a b : JSVal) : Bool :=
  match fuel, a, b with
  | _, .undef, .null => true
  | _, .null, .undef => true
  | _, .num x, .str s => jsNumEq x (strToNum s)
  | _, .str s, .num x => jsNumEq (strToNum s) x
  | _ + 1, .bool x, y => rec (.num (.val (if x then 1 else 0))) y
  | _ + 1, x, .bool y => rec x (.num (.val (if y then 1 else 0)))
  | _ + 1, .num x, .arr e => rec (.num x) (toPrimitiveV (.arr e))
  | _ + 1, .str x, .arr e => rec (.str x) (toPrimitiveV (.arr e))
  | _ + 1, .num x, .obj p => rec (.num x) (toPrimitiveV (.obj p))
  | _ + 1, .str x, .obj p => rec (.str x) (toPrimitiveV (.obj p))
  | _ + 1, .num x, .fn i => rec (.num x) (toPrimitiveV (.fn i))
  | _ + 1, .str x, .fn i => rec (.str x) (toPrimitiveV (.fn i))
  | _ + 1, .arr e, .num y => rec (toPrimitiveV (.arr e)) (.num y)
  | _ + 1, .arr e, .str y => rec (toPrimitiveV (.arr e)) (.str y)
  | _ + 1, .obj p, .num y => rec (toPrimitiveV (.obj p)) (.num y)
  | _ + 1, .obj p, .str y => rec (toPrimitiveV (.obj p)) (.str y)
  | _ + 1, .fn i, .num y => rec (toPrimitiveV (.fn i)) (.num y)
  | _ + 1, .fn i, .str y => rec (toPrimitiveV (.fn i)) (.str y)
  | _, x, y => jsStrictEqB x y

def looseCore : Nat → JSVal → JSVal → Bool
  | 0, a, b => jsStrictEqB a b
  | fuel + 1, a, b => looseStep (fuel + 1) (looseCore fuel) a b

/-- Loose equality; three coercion steps always suffice. -/
def jsLooseEqB (a b : JSVal) : Bool := looseCore 3 a b

def jsNumLt (a b : JSNum) : Bool :=
  match a, b with
  | .nan, _ => false
  | _, .nan => false
  | .val x, .val y => x < y
  | .ninf, .ninf => false
  | .ninf, _ => true
  | _, .ninf => false
  | .inf, _ => false
  | .val _, .inf => true

/-- Lexicographic UTF code point comparison of strings. -/
def charListLt : List Char → List Char → Bool
  | [], [] => false
  | [], _ :: _ => true
  | _ :: _, [] => false
  | a :: as, b :: bs =>
    if a.toNat < b.toNat then true
    else if b.toNat < a.toNat then false
    else charListLt as bs

/-- Relational comparison: both operands to primitives; two strings
compare lexicographically, anything else numerically. -/
def jsLtB (a b : JSVal) : Bool :=
  match toPrimitiveV a, toPrimitiveV b with
  | .str x, .str y => charListLt x.toList y.toList
  | x, y => jsNumLt (jsToNumber x) (jsToNumber y)

def jsNumAdd (a b : JSNum) : JSNum :=
  match a, b with
  | .nan, _ => .nan
  | _, .nan => .nan
  | .val x, .val y => .val (x + y)
  | .inf, .ninf => .nan
  | .ninf, .inf => .nan
  | .inf, _ => .inf
  | _, .inf => .inf
  | .ninf, _ => .ninf
  | _, .ninf => .ninf

def jsNumNeg (a : JSNum) : JSNum :=
  match a with
  | .nan => .nan
  | .val x => .val (-x)
  | .inf => .ninf
  | .ninf => .inf

def jsNumSub (a b : JSNum) : JSNum := jsNumAdd a (jsNumNeg b)

def jsNumMul (a b : JSNum) : JSNum :=
  match a, b with
  | .nan, _ => .nan
  | _, .nan => .nan
  | .val x, .val y => .val (x * y)
  | .val x, .inf => if x == 0 then .nan else if 0 < x then .inf else .ninf
  | .val x, .ninf => if x == 0 then .nan else if 0 < x then .ninf else .inf
  | .inf, .val y => if y == 0 then .nan else if 0 < y then .inf else .ninf
  | .ninf, .val y => if y == 0 then .nan else if 0 < y then .ninf else .inf
  | .inf, .inf => .inf
  | .inf, .ninf => .ninf
  | .ninf, .inf => .ninf
  | .ninf, .ninf => .inf

def jsNumDiv (a b : JSNum) : JSNum :=
  match a, b with
  | .nan, _ => .nan
  | _, .nan => .nan
  | .val x, .val y =>
    if y == 0 then (if x == 0 then .nan else if 0 < x then .inf else .ninf)
    else .val (x / y)
  | .val _, .inf => .val 0
  | .val _, .ninf => .val 0
  | .inf, .val y => if 0 ≤ y then .inf else .ninf
  | .ninf, .val y => if 0 ≤ y then .ninf else .inf
  | _, _ => .nan

/-- Truncation toward zero. -/
def ratTrunc (q : Rat) : Int := if 0 ≤ q then q.floor else q.ceil

def jsNumMod (a b : JSNum) : JSNum :=
  match a, b with
  | .nan, _ => .nan
  | _, .nan => .nan
  | .inf, _ => .nan
  | .ninf, _ => .nan
  | .val x, .val y => if y == 0 then .nan else .val (x - y * (ratTrunc (x / y) : Rat))
  | .val x, _ => .val x

/-- The addition operator: string concatenation when either primitive operand
is a string, numeric addition otherwise. -/
def jsAdd (a b : JSVal) : JSVal :=
  let pa := toPrimitiveV a
  let pb := toPrimitiveV b
  match pa, pb with
  | .str x, y => .str (x ++ jsToString y)
  | x, .str y => .str (jsToString x ++ y)
  | x, y => .num (jsNumAdd (jsToNumber x) (jsToNumber y))

/-! ## Sandbox guards (parse.js, ensureSafe*) -/

/-- The six blacklisted member names. -/
def disallowedMemberNames : List String :=
  ["constructor", "__proto__", "__defineGetter__",
   "__defineSetter__", "__lookupGetter__", "__lookupSetter__"]

/-- Guard ensureSafeMemberName: rejects the six blacklisted names. -/
def ensureSafeMemberName (name : String) : Except JsError Unit :=
  if disallowedMemberNames.contains name then
    .error (.securityError "Attempting to access a disallowed field")
  else .ok ()

/-- Runtime form of ensureSafeMemberName applied to an arbitrary value
(the computed-member path): lodash includes matches only an equal
string. -/
def ensureSafeMemberNameV (v : JSVal) : Except JsError Unit :=
  match v with
  | .str s => ensureSafeMemberName s
  | _ => .ok ()

/-- DOM-node shape test (no host `Node` object in the model, so the
structural branch of the source applies: truthy object with numeric
`nodeType` and string `nodeName`). -/
def isDOMNode (v : JSVal) : Bool :=
  (match v with | .obj _ => true | .arr _ => true | _ => false) &&
  (match getProp v "nodeType" with | .num _ => true | _ => false) &&
  (match getProp v "nodeName" with | .str _ => true | _ => false)

/-- Guard ensureSafeObject.  The self-referential constructor test of the
source (`obj.constructor === obj`) is embedded literally; on the
cycle-free tree domain it evaluates to false, matching the fact that no
modelled value is the host Function constructor. -/
def ensureSafeObject (v : JSVal) : Except JsError JSVal :=
  if truthy v then
    if truthy (getProp v "document") && truthy (getProp v "location") &&
       truthy (getProp v "alert") && truthy (getProp v "setTimeout") then
      .error (.securityError "Referencing window is not allowed")
    else if jsEqB (getProp v "constructor") v then
      .error (.securityError "Referencing Function is not allowed")
    else if truthy (getProp v "getOwnPropertyNames") ||
            truthy (getProp v "getOwnPropertyDescriptor") then
      .error (.securityError "Referencing Object is not allowed")
    else if isDOMNode v then
      .error (.securityError "Referencing DOM node is not allowed")
    else .ok v
  else .ok v

/-- Reserved function-table ids standing for the three host primitives
`Function.prototype.call`, `.apply` and `.bind`; host function values
supplied through scopes in theorems use ids from 3 upward. -/
def fnCallId : Nat := 0
def fnApplyId : Nat := 1
def fnBindId : Nat := 2

instance : BEq JSVal := ⟨jsEqB⟩

/-- Guard ensureSafeFunction. -/
def ensureSafeFunction (v : JSVal) : Except JsError JSVal :=
  if truthy v then
    if jsEqB (getProp v "constructor") v then
      .error (.securityError "Referencing Function is not allowed")
    else if v == JSVal.fn fnCallId || v == JSVal.fn fnApplyId || v == JSVal.fn fnBindId then
      .error (.securityError "Referencing call, apply or bind is not allowed")
    else .ok v
  else .ok v

/-- Helper isDefined of the source: substitute a default for
`undefined`. -/
def isDefinedD (value defaultValue : JSVal) : JSVal :=
  match value with
  | .undef => defaultValue
  | v => v

/-! ## Lexer (parse.js, class Lexer)

The lexer scans a `List Char` left to right by index.  Loops of the
source become fuel recursion; every iteration advances the index, so a
fuel of `length + 1` can never run out (the fuel branch throws a
distinguished error so that adequacy is visible in the theorems). -/

/-- Character class predicates of the source. -/
def isNumberCh (c : Char) : Bool := '0' ≤ c && c ≤ '9'

def isExpOperator (c : Char) : Bool := c == '-' || c == '+' || isNumberCh c

def isIdentifierCh (c : Char) : Bool :=
  ('a' ≤ c && c ≤ 'z') || ('A' ≤ c && c ≤ 'Z') || c == '_' || c == '$'

def isWhiteSpace (c : Char) : Bool :=
  c == ' ' || c == '\r' || c == '\t' || c == '\n' || c == '\x0b' || c == ' '

/-- Single character toLocaleLowerCase (ASCII range, which is all the
lexer feeds it through number scanning). -/
def charLower (c : Char) : Char :=
  if 'A' ≤ c && c ≤ 'Z' then Char.ofNat (c.toNat + 32) else c

/-- Lexer.peek: `null` past the end, otherwise the (possibly clipped,
possibly empty) substring of length `offset` starting after `index`. -/
def lexPeek (t : List Char) (index offset : Nat) : Option String :=
  if (index : Int) > (t.length : Int) - (offset : Int) then none
  else some (String.mk ((t.drop (index + 1)).take offset))

/-- JavaScript truthiness of a peeked string (null or empty are falsy). -/
def optTruthy : Option String → Bool
  | some s => !(s == "")
  | none => false

/-- The isNumber test applied to a peeked string (null-safe in the
source; a one-character string compares like its character). -/
def optIsNumber : Option String → Bool
  | some s => (match s.toList with | [c] => isNumberCh c | _ => false)
  | none => false

/-- The isExpOperator test applied to a peeked string. -/
def optIsExpOperator : Option String → Bool
  | some s => (match s.toList with | [c] => isExpOperator c | _ => false)
  | none => false

/-- Token produced by the lexer. -/
structure LexToken where
  text : String
  value : Option JSVal := none
  identifier : Bool := false

/-- Loop body of Lexer.readNumber.  The accumulated lexeme is kept in
reverse so that the previous character is the head. -/
def readNumberLoop (t : List Char) : Nat → Nat → List Char →
    Except JsError (List Char × Nat)
  | 0, _, _ => .error (.lexError "lexer fuel exhausted")
  | fuel + 1, i, acc =>
    if h : i < t.length then
      let ch := charLower t[i]
      if ch == '.' || isNumberCh ch then readNumberLoop t fuel (i + 1) (ch :: acc)
      else
        let nextCh := lexPeek t i 1
        let prevCh := acc.head?
        if ch == 'e' && optIsExpOperator nextCh then
          readNumberLoop t fuel (i + 1) (ch :: acc)
        else if prevCh == some 'e' && isExpOperator ch && optTruthy nextCh &&
                optIsNumber nextCh then
          readNumberLoop t fuel (i + 1) (ch :: acc)
        else if isExpOperator ch && prevCh == some 'e' &&
                (!(optTruthy nextCh) || !(optIsNumber nextCh)) then
          .error (.lexError "Invalid exponent")
        else .ok (acc, i)
    else .ok (acc, i)

/-- Lexer.readNumber starting at `i`; returns the token and the index
after the lexeme. -/
def readNumber (t : List Char) (i : Nat) : Except JsError (LexToken × Nat) := do
  let (accRev, j) ← readNumberLoop t (t.length + 1) i []
  let text := String.mk accRev.reverse
  pure ({ text := text, value := some (.num (strToNum text)) }, j)

/-- Hexadecimal digit test for the unicode escape (regex class with the
case-insensitive flag). -/
def isHexDigitCh (c : Char) : Bool :=
  isNumberCh c || ('a' ≤ c && c ≤ 'f') || ('A' ≤ c && c ≤ 'F')

def hexDigitVal (c : Char) : Nat :=
  if isNumberCh c then c.toNat - '0'.toNat
  else if 'a' ≤ c && c ≤ 'f' then c.toNat - 'a'.toNat + 10
  else c.toNat - 'A'.toNat + 10

def hexToNat (cs : List Char) : Nat :=
  cs.foldl (fun acc c => acc * 16 + hexDigitVal c) 0

/-- Escape replacement map of the source. -/
def escapeMapCh (c : Char) : Option Char :=
  if c == 'n' then some '\n'
  else if c == 'f' then some '\x0c'
  else if c == 'r' then some '\r'
  else if c == 't' then some '\t'
  else if c == 'v' then some '\x0b'
  else if c == '\'' then some '\''
  else if c == '"' then some '"'
  else none

/-- Loop body of Lexer.readString: index, escape flag, decoded value and
raw spelling (both accumulated in reverse).  The raw spelling starts
after the opening quote and, as in the source, includes the closing
quote. -/
def readStringLoop (t : List Char) (quote : Char) : Nat → Nat → Bool →
    List Char → List Char → Except JsError (LexToken × Nat)
  | 0, _, _, _, _ => .error (.lexError "lexer fuel exhausted")
  | fuel + 1, i, esc, strAcc, rawAcc =>
    if h : i < t.length then
      let ch := t[i]
      let rawAcc := ch :: rawAcc
      if esc then
        if ch == 'u' then
          match lexPeek t i 4 with
          | none => .error (.lexError "Invalid unicode escape")
          | some hx =>
            if hx.length == 4 && hx.toList.all isHexDigitCh then
              readStringLoop t quote fuel (i + 5) false
                (Char.ofNat (hexToNat hx.toList) :: strAcc) rawAcc
            else .error (.lexError "Invalid unicode escape")
        else
          match escapeMapCh ch with
          | some r => readStringLoop t quote fuel (i + 1) false (r :: strAcc) rawAcc
          | none => readStringLoop t quote fuel (i + 1) false (ch :: strAcc) rawAcc
      else if ch == quote then
        .ok ({ text := String.mk rawAcc.reverse,
               value := some (.str (String.mk strAcc.reverse)) }, i + 1)
      else if ch == '\\' then
        readStringLoop t quote fuel (i + 1) true strAcc rawAcc
      else
        readStringLoop t quote fuel (i + 1) false (ch :: strAcc) rawAcc
    else .error (.lexError "Unmatched Quote")

/-- Lexer.readString: called with the index of the opening quote, which
it first skips. -/
def readString (t : List Char) (quote : Char) (i : Nat) :
    Except JsError (LexToken × Nat) :=
  readStringLoop t quote (t.length + 1) (i + 1) false [] []

/-- Loop body of Lexer.readIdentifier (cannot fail). -/
def readIdentifierLoop (t : List Char) : Nat → Nat → List Char → List Char × Nat
  | 0, i, acc => (acc, i)
  | fuel + 1, i, acc =>
    if h : i < t.length then
      let ch := t[i]
      if isIdentifierCh ch || isNumberCh ch then
        readIdentifierLoop t fuel (i + 1) (ch :: acc)
      else (acc, i)
    else (acc, i)

def readIdentifier (t : List Char) (i : Nat) : LexToken × Nat :=
  let (accRev, j) := readIdentifierLoop t (t.length + 1) i []
  ({ text := String.mk accRev.reverse, identifier := true }, j)

/-- The operator table of the source. -/
def operatorsMap (s : String) : Bool :=
  s ∈ ["+", "!", "-", "*", "/", "%", "=", "==", "!=", "===", "!==",
       "<", ">", "<=", ">=", "&&", "||", "|"]

/-- Lodash findLast on a list of candidate operator spellings. -/
def findLastOp (l : List String) : Option String :=
  l.foldl (fun acc s => if operatorsMap s then some s else acc) none

/-- Punctuation characters pushed through as single-character tokens. -/
def isPunctuationCh (c : Char) : Bool :=
  c ∈ "[],\x7b\x7d:.()?;".toList

/-- Main loop of Lexer.lex. -/
def lexLoop (t : List Char) : Nat → Nat → List LexToken →
    Except JsError (List LexToken)
  | 0, _, _ => .error (.lexError "lexer fuel exhausted")
  | fuel + 1, i, toks =>
    if h : i < t.length then
      let ch := t[i]
      if isNumberCh ch || (ch == '.' && optIsNumber (lexPeek t i 1)) then do
        let (tok, j) ← readNumber t i
        lexLoop t fuel j (toks ++ [tok])
      else if ch == '\'' || ch == '"' then do
        let (tok, j) ← readString t ch i
        lexLoop t fuel j (toks ++ [tok])
      else if isPunctuationCh ch then
        lexLoop t fuel (i + 1) (toks ++ [{ text := ch.toString }])
      else if isIdentifierCh ch then
        let (tok, j) := readIdentifier t i
        lexLoop t fuel j (toks ++ [tok])
      else if isWhiteSpace ch then
        lexLoop t fuel (i + 1) toks
      else
        let nextStrings := [ch.toString] ++
          (match lexPeek t i 1 with
           | some s => if s == "" then [] else [ch.toString ++ s]
           | none => []) ++
          (match lexPeek t i 2 with
           | some s => if s == "" then [] else [ch.toString ++ s]
           | none => [])
        match findLastOp nextStrings with
        | some op => lexLoop t fuel (i + op.length) (toks ++ [{ text := op }])
        | none => .error (.lexError ("Unexpected next character: " ++ ch.toString))
    else .ok toks

/-- Lexer.lex on an input character list. -/
def lex (t : List Char) : Except JsError (List LexToken) :=
  lexLoop t (t.length + 1) 0 []

/-! ## AST (parse.js, AST node classes)

One inductive with a constructor per node class.  The source computes
`constant` and `toWatch` once in each constructor and stores them; here
they are the structural recursions `constantB` and `toWatch`, which agree
with the stored fields because the fields are write-once and computed by
exactly these equations.  The statefulness of a filter callee is sampled
from the registry at construction time in the source, so the filter node
carries the sampled `stateless` flag as data. -/

/-- Object literal key: identifier or literal (constant) token. -/
inductive ObjKey where
  | idKey (name : String)
  | litKey (v : JSVal)

inductive AST where
  | program (body : List AST)
  | lit (value : JSVal)
  | arrayExpr (elements : List AST)
  | objectExpr (properties : List (ObjKey × AST))
  | ident (name : String)
  | thisExpr
  | memberNon (object : AST) (propName : String)
  | memberComp (object : AST) (property : AST)
  | call (callee : AST) (args : List AST)
  | filterExpr (calleeName : String) (stateless : Bool) (args : List AST)
  | assign (left right : AST)
  | unary (op : String) (argument : AST)
  | binary (op : String) (left right : AST)
  | logical (op : String) (left right : AST)
  | conditional (test cons alt : AST)
  | ngValueParameter

def objKeyBeq (a b : ObjKey) : Bool :=
  match a, b with
  | .idKey x, .idKey y => x == y
  | .litKey x, .litKey y => jsEqB x y
  | _, _ => false

mutual

/-- Structural equality of AST nodes (stands in for the reference
identity used by AST.getInputs; an element of `toWatch` is either the
node itself or a strict subterm, so structural and reference equality
coincide there). -/
def astBeq : AST → AST → Bool
  | .program a, .program b => astListBeq a b
  | .lit a, .lit b => jsEqB a b
  | .arrayExpr a, .arrayExpr b => astListBeq a b
  | .objectExpr a, .objectExpr b => astPropsBeq a b
  | .ident a, .ident b => a == b
  | .thisExpr, .thisExpr => true
  | .memberNon o1 p1, .memberNon o2 p2 => astBeq o1 o2 && p1 == p2
  | .memberComp o1 p1, .memberComp o2 p2 => astBeq o1 o2 && astBeq p1 p2
  | .call c1 a1, .call c2 a2 => astBeq c1 c2 && astListBeq a1 a2
  | .filterExpr n1 s1 a1, .filterExpr n2 s2 a2 => n1 == n2 && s1 == s2 && astListBeq a1 a2
  | .assign l1 r1, .assign l2 r2 => astBeq l1 l2 && astBeq r1 r2
  | .unary o1 a1, .unary o2 a2 => o1 == o2 && astBeq a1 a2
  | .binary o1 l1 r1, .binary o2 l2 r2 => o1 == o2 && astBeq l1 l2 && astBeq r1 r2
  | .logical o1 l1 r1, .logical o2 l2 r2 => o1 == o2 && astBeq l1 l2 && astBeq r1 r2
  | .conditional t1 c1 a1, .conditional t2 c2 a2 => astBeq t1 t2 && astBeq c1 c2 && astBeq a1 a2
  | .ngValueParameter, .ngValueParameter => true
  | _, _ => false

def astListBeq : List AST → List AST → Bool
  | [], [] => true
  | a :: as, b :: bs => astBeq a b && astListBeq as bs
  | _, _ => false

def astPropsBeq : List (ObjKey × AST) → List (ObjKey × AST) → Bool
  | [], [] => true
  | (k1, v1) :: as, (k2, v2) :: bs => objKeyBeq k1 k2 && astBeq v1 v2 && astPropsBeq as bs
  | _, _ => false

end

mutual

/-- The constant attribute, node class by node class. -/
def constantB : AST → Bool
  | .program body => allConstantB body
  | .lit _ => true
  | .arrayExpr els => allConstantB els
  | .objectExpr props => propsConstantB props
  | .ident _ => false
  | .thisExpr => false
  | .memberNon o _ => constantB o
  | .memberComp o p => constantB o && constantB p
  | .call _ _ => false
  | .filterExpr _ stateless args => stateless && allConstantB args
  | .assign l r => constantB l && constantB r
  | .unary _ a => constantB a
  | .binary _ l r => constantB l && constantB r
  | .logical _ l r => constantB l && constantB r
  | .conditional t c a => constantB t && constantB c && constantB a
  | .ngValueParameter => false

def allConstantB : List AST → Bool
  | [] => true
  | a :: as => constantB a && allConstantB as

def propsConstantB : List (ObjKey × AST) → Bool
  | [] => true
  | (_, v) :: ps => constantB v && propsConstantB ps

end

mutual

/-- The toWatch attribute.  The Program constructor of the source never
assigns the field (it stays `undefined` and is never read); the equation
here returns `[]` for programs, a value no theorem depends on. -/
def toWatch : AST → List AST
  | .program _ => []
  | .lit _ => []
  | .arrayExpr els => watchNonConstant els
  | .objectExpr props => watchProps props
  | .ident n => [.ident n]
  | .thisExpr => []
  | .memberNon o p => [.memberNon o p]
  | .memberComp o p => [.memberComp o p]
  | .call c a => [.call c a]
  | .filterExpr n st args => if st then watchAll args else [.filterExpr n st args]
  | .assign l r => [.assign l r]
  | .unary _ a => toWatch a
  | .binary _ l r => toWatch l ++ toWatch r
  | .logical op l r => [.logical op l r]
  | .conditional t c a => [.conditional t c a]
  | .ngValueParameter => []

/-- Flat map of toWatch over the non-constant elements (the partition of
the array and object constructors). -/
def watchNonConstant : List AST → List AST
  | [] => []
  | a :: as => (if constantB a then [] else toWatch a) ++ watchNonConstant as

def watchProps : List (ObjKey × AST) → List AST
  | [] => []
  | (_, v) :: ps => (if constantB v then [] else toWatch v) ++ watchProps ps

def watchAll : List AST → List AST
  | [] => []
  | a :: as => toWatch a ++ watchAll as

end

/-- AST.isLiteral: empty program, or a single Literal, Array or Object
body element. -/
def isLiteralAST (ast : AST) : Bool :=
  match ast with
  | .program [] => true
  | .program [e] =>
    (match e with
     | .lit _ => true
     | .arrayExpr _ => true
     | .objectExpr _ => true
     | _ => false)
  | _ => false

/-- AST.getInputs: the input set of a single-statement program. -/
def getInputs (ast : AST) : List AST :=
  match ast with
  | .program [e] =>
    let candidate := toWatch e
    if candidate.length == 1 &&
       (match candidate.head? with | some c => astBeq c e | none => false) then []
    else candidate
  | .program _ => []
  | _ => []

/-- AST.isAssignable. -/
def isAssignable (ast : AST) : Bool :=
  match ast with
  | .ident _ => true
  | .memberNon _ _ => true
  | .memberComp _ _ => true
  | _ => false

/-- AST.assignableAST: synthetic assignment with the NGValueParameter
placeholder on the right. -/
def assignableAST (ast : AST) : Option AST :=
  match ast with
  | .program [e] => if isAssignable e then some (.assign e .ngValueParameter) else none
  | _ => none

/-! ## Filter registry (filter.js) -/

/-- A registered filter: the host function and its stateful marker (the
source reads the marker as property access `$stateful`, absent means
false). -/
structure FilterDef where
  stateful : Bool := false
  fn : List JSVal → Except JsError JSVal

/-- The registry contents: `filter(name)` returns the registered filter
or `undefined` (here `none`). -/
def Registry : Type := String → Option FilterDef

/-! ## Parser (parse.js, class AST)

Recursive descent over the token list.  The mutable `this.tokens` of the
source becomes explicit passing of the remaining tokens; every routine
returns the node and the rest.  All recursion is fuel-indexed; the fuel
computed by `astBuild` is large enough that the distinguished fuel error
is unreachable (the parser consumes tokens). -/

/-- AST.peek: first token if its text is expected, wildcard on an empty
expectation list. -/
def peekTok (toks : List LexToken) (es : List String) : Option LexToken :=
  match toks with
  | [] => none
  | tk :: _ => if es.contains tk.text || es.isEmpty then some tk else none

/-- AST.expect: like peek but also consumes. -/
def expectTok (toks : List LexToken) (es : List String) :
    Option LexToken × List LexToken :=
  match peekTok toks es with
  | some tk => (some tk, toks.tail)
  | none => (none, toks)

/-- AST.consume: expect or fail. -/
def consumeTok (toks : List LexToken) (es : List String) :
    Except JsError (LexToken × List LexToken) :=
  match expectTok toks es with
  | (some tk, rest) => .ok (tk, rest)
  | (none, _) => .error (.parseError ("Unexpected. Expected " ++ String.intercalate "," es))

/-- The LanguageConstants table. -/
def languageConstant (s : String) : Option AST :=
  if s == "this" then some .thisExpr
  else if s == "null" then some (.lit .null)
  else if s == "true" then some (.lit (.bool true))
  else if s == "false" then some (.lit (.bool false))
  else if s == "undefined" then some (.lit .undef)
  else none

/-- AST.constant: wrap the consumed token value (punctuation tokens have
no value, giving a Literal carrying `undefined`). -/
def constantNode (toks : List LexToken) : Except JsError (AST × List LexToken) := do
  let (tk, rest) ← consumeTok toks []
  pure (.lit (tk.value.getD .undef), rest)

/-- AST.identifier. -/
def identifierNode (toks : List LexToken) : Except JsError (String × List LexToken) := do
  let (tk, rest) ← consumeTok toks []
  if tk.identifier then pure (tk.text, rest)
  else .error (.parseError ("Tokenize Error: " ++ tk.text ++ " is not an identifier"))

/-- ASTFilterExpressionNode construction: samples `$stateful` from the
registry; an unregistered name makes the property access throw the host
TypeError. -/
def mkFilterNode (reg : Registry) (calleeName : String) (args : List AST) :
    Except JsError AST :=
  match reg calleeName with
  | none => .error (.typeError "Cannot read property $stateful of undefined")
  | some fd => .ok (.filterExpr calleeName (!fd.stateful) args)

mutual

def pProgram (reg : Registry) : Nat → List LexToken → Except JsError (AST × List LexToken)
  | 0, _ => .error (.parseError "parser fuel exhausted")
  | fuel + 1, toks => pProgramLoop reg fuel toks []

def pProgramLoop (reg : Registry) : Nat → List LexToken → List AST →
    Except JsError (AST × List LexToken)
  | 0, _, _ => .error (.parseError "parser fuel exhausted")
  | fuel + 1, toks, body => do
    let (body1, toks1) ←
      if toks.isEmpty then pure (body, toks)
      else do
        let (a, rest) ← pFilter reg fuel toks
        pure (body ++ [a], rest)
    match expectTok toks1 [";"] with
    | (some _, toks2) => pProgramLoop reg fuel toks2 body1
    | (none, _) => pure (.program body1, toks1)

def pFilter (reg : Registry) : Nat → List LexToken → Except JsError (AST × List LexToken)
  | 0, _ => .error (.parseError "parser fuel exhausted")
  | fuel + 1, toks => do
    let (left, toks1) ← pAssignment reg fuel toks
    pFilterLoop reg fuel toks1 left

def pFilterLoop (reg : Registry) : Nat → List LexToken → AST →
    Except JsError (AST × List LexToken)
  | 0, _, _ => .error (.parseError "parser fuel exhausted")
  | fuel + 1, toks, left =>
    match expectTok toks ["|"] with
    | (some _, toks1) => do
      let (calleeName, toks2) ← identifierNode toks1
      let (args, toks3) ← pFilterArgs reg fuel toks2 [left]
      let node ← mkFilterNode reg calleeName args
      pFilterLoop reg fuel toks3 node
    | (none, _) => pure (left, toks)

def pFilterArgs (reg : Registry) : Nat → List LexToken → List AST →
    Except JsError (List AST × List LexToken)
  | 0, _, _ => .error (.parseError "parser fuel exhausted")
  | fuel + 1, toks, args =>
    match expectTok toks [":"] with
    | (some _, toks1) => do
      let (a, toks2) ← pAssignment reg fuel toks1
      pFilterArgs reg fuel toks2 (args ++ [a])
    | (none, _) => pure (args, toks)

def pAssignment (reg : Registry) : Nat → List LexToken → Except JsError (AST × List LexToken)
  | 0, _ => .error (.parseError "parser fuel exhausted")
  | fuel + 1, toks => do
    let (left, toks1) ← pTernary reg fuel toks
    match expectTok toks1 ["="] with
    | (some _, toks2) => do
      let (right, toks3) ← pTernary reg fuel toks2
      pure (.assign left right, toks3)
    | (none, _) => pure (left, toks1)

def pTernary (reg : Registry) : Nat → List LexToken → Except JsError (AST × List LexToken)
  | 0, _ => .error (.parseError "parser fuel exhausted")
  | fuel + 1, toks => do
    let (test, toks1) ← pLogicalOR reg fuel toks
    match expectTok toks1 ["?"] with
    | (some _, toks2) => do
      let (cons, toks3) ← pAssignment reg fuel toks2
      let (_, toks4) ← consumeTok toks3 [":"]
      let (alt, toks5) ← pAssignment reg fuel toks4
      pure (.conditional test cons alt, toks5)
    | (none, _) => pure (test, toks1)

def pLogicalOR (reg : Registry) : Nat → List LexToken → Except JsError (AST × List LexToken)
  | 0, _ => .error (.parseError "parser fuel exhausted")
  | fuel + 1, toks => do
    let (left, toks1) ← pLogicalAND reg fuel toks
    pLogicalORLoop reg fuel toks1 left

def pLogicalORLoop (reg : Registry) : Nat → List LexToken → AST →
    Except JsError (AST × List LexToken)
  | 0, _, _ => .error (.parseError "parser fuel exhausted")
  | fuel + 1, toks, left =>
    match expectTok toks ["||"] with
    | (some tk, toks1) => do
      let (right, toks2) ← pLogicalAND reg fuel toks1
      pLogicalORLoop reg fuel toks2 (.logical tk.text left right)
    | (none, _) => pure (left, toks)

def pLogicalAND (reg : Registry) : Nat → List LexToken → Except JsError (AST × List LexToken)
  | 0, _ => .error (.parseError "parser fuel exhausted")
  | fuel + 1, toks => do
    let (left, toks1) ← pEquality reg fuel toks
    pLogicalANDLoop reg fuel toks1 left

def pLogicalANDLoop (reg : Registry) : Nat → List LexToken → AST →
    Except JsError (AST × List LexToken)
  | 0, _, _ => .error (.parseError "parser fuel exhausted")
  | fuel + 1, toks, left =>
    match expectTok toks ["&&"] with
    | (some tk, toks1) => do
      let (right, toks2) ← pEquality reg fuel toks1
      pLogicalANDLoop reg fuel toks2 (.logical tk.text left right)
    | (none, _) => pure (left, toks)

def pEquality (reg : Registry) : Nat → List LexToken → Except JsError (AST × List LexToken)
  | 0, _ => .error (.parseError "parser fuel exhausted")
  | fuel + 1, toks => do
    let (left, toks1) ← pRelational reg fuel toks
    pEqualityLoop reg fuel toks1 left

def pEqualityLoop (reg : Registry) : Nat → List LexToken → AST →
    Except JsError (AST × List LexToken)
  | 0, _, _ => .error (.parseError "parser fuel exhausted")
  | fuel + 1, toks, left =>
    match expectTok toks ["==", "!=", "===", "!=="] with
    | (some tk, toks1) => do
      let (right, toks2) ← pRelational reg fuel toks1
      pEqualityLoop reg fuel toks2 (.binary tk.text left right)
    | (none, _) => pure (left, toks)

def pRelational (reg : Registry) : Nat → List LexToken → Except JsError (AST × List LexToken)
  | 0, _ => .error (.parseError "parser fuel exhausted")
  | fuel + 1, toks => do
    let (left, toks1) ← pAdditive reg fuel toks
    pRelationalLoop reg fuel toks1 left

def pRelationalLoop (reg : Registry) : Nat → List LexToken → AST →
    Except JsError (AST × List LexToken)
  | 0, _, _ => .error (.parseError "parser fuel exhausted")
  | fuel + 1, toks, left =>
    match expectTok toks ["<", ">", ">=", "<="] with
    | (some tk, toks1) => do
      let (right, toks2) ← pAdditive reg fuel toks1
      pRelationalLoop reg fuel toks2 (.binary tk.text left right)
    | (none, _) => pure (left, toks)

def pAdditive (reg : Registry) : Nat → List LexToken → Except JsError (AST × List LexToken)
  | 0, _ => .error (.parseError "parser fuel exhausted")
  | fuel + 1, toks => do
    let (left, toks1) ← pMultiplicative reg fuel toks
    pAdditiveLoop reg fuel toks1 left

def pAdditiveLoop (reg : Registry) : Nat → List LexToken → AST →
    Except JsError (AST × List LexToken)
  | 0, _, _ => .error (.parseError "parser fuel exhausted")
  | fuel + 1, toks, left =>
    match expectTok toks ["+", "-"] with
    | (some tk, toks1) => do
      let (right, toks2) ← pMultiplicative reg fuel toks1
      pAdditiveLoop reg fuel toks2 (.binary tk.text left right)
    | (none, _) => pure (left, toks)

def pMultiplicative (reg : Registry) : Nat → List LexToken → Except JsError (AST × List LexToken)
  | 0, _ => .error (.parseError "parser fuel exhausted")
  | fuel + 1, toks => do
    let (left, toks1) ← pUnary reg fuel toks
    pMultiplicativeLoop reg fuel toks1 left

def pMultiplicativeLoop (reg : Registry) : Nat → List LexToken → AST →
    Except JsError (AST × List LexToken)
  | 0, _, _ => .error (.parseError "parser fuel exhausted")
  | fuel + 1, toks, left =>
    match expectTok toks ["*", "/", "%"] with
    | (some tk, toks1) => do
      let (right, toks2) ← pUnary reg fuel toks1
      pMultiplicativeLoop reg fuel toks2 (.binary tk.text left right)
    | (none, _) => pure (left, toks)

def pUnary (reg : Registry) : Nat → List LexToken → Except JsError (AST × List LexToken)
  | 0, _ => .error (.parseError "parser fuel exhausted")
  | fuel + 1, toks =>
    match expectTok toks ["+", "!", "-"] with
    | (some tk, toks1) => do
      let (arg, toks2) ← pUnary reg fuel toks1
      pure (.unary tk.text arg, toks2)
    | (none, _) => pPrimary reg fuel toks

def pPrimary (reg : Registry) : Nat → List LexToken → Except JsError (AST × List LexToken)
  | 0, _ => .error (.parseError "parser fuel exhausted")
  | fuel + 1, toks => do
    let (prim, toks1) ←
      match expectTok toks ["("] with
      | (some _, t1) => do
        let (a, t2) ← pFilter reg fuel t1
        let (_, t3) ← consumeTok t2 [")"]
        pure (a, t3)
      | (none, _) =>
      match expectTok toks ["["] with
      | (some _, t1) => pArray reg fuel t1
      | (none, _) =>
      match expectTok toks ["\x7b"] with
      | (some _, t1) => pObject reg fuel t1
      | (none, _) =>
      match toks with
      | [] => .error (.typeError "Cannot read property text of undefined")
      | tk :: _ =>
        match languageConstant tk.text with
        | some node => do
          let (_, t1) ← consumeTok toks []
          pure (node, t1)
        | none =>
          if tk.identifier then do
            let (name, t1) ← identifierNode toks
            pure (AST.ident name, t1)
          else constantNode toks
    pPostfixLoop reg fuel toks1 prim

def pPostfixLoop (reg : Registry) : Nat → List LexToken → AST →
    Except JsError (AST × List LexToken)
  | 0, _, _ => .error (.parseError "parser fuel exhausted")
  | fuel + 1, toks, prim =>
    match expectTok toks [".", "[", "("] with
    | (some tk, toks1) =>
      if tk.text == "[" then do
        let (property, toks2) ← pPrimary reg fuel toks1
        let (_, toks3) ← consumeTok toks2 ["]"]
        pPostfixLoop reg fuel toks3 (.memberComp prim property)
      else if tk.text == "." then do
        let (name, toks2) ← identifierNode toks1
        pPostfixLoop reg fuel toks2 (.memberNon prim name)
      else do
        let (args, toks2) ←
          match peekTok toks1 [")"] with
          | some _ => pure (([] : List AST), toks1)
          | none => pCallArgs reg fuel toks1 []
        let (_, toks3) ← consumeTok toks2 [")"]
        pPostfixLoop reg fuel toks3 (.call prim args)
    | (none, _) => pure (prim, toks)

def pCallArgs (reg : Registry) : Nat → List LexToken → List AST →
    Except JsError (List AST × List LexToken)
  | 0, _, _ => .error (.parseError "parser fuel exhausted")
  | fuel + 1, toks, args => do
    let (a, toks1) ← pAssignment reg fuel toks
    match expectTok toks1 [","] with
    | (some _, toks2) => pCallArgs reg fuel toks2 (args ++ [a])
    | (none, _) => pure (args ++ [a], toks1)

def pObject (reg : Registry) : Nat → List LexToken → Except JsError (AST × List LexToken)
  | 0, _ => .error (.parseError "parser fuel exhausted")
  | fuel + 1, toks => do
    let (props, toks1) ←
      match peekTok toks ["\x7d"] with
      | some _ => pure (([] : List (ObjKey × AST)), toks)
      | none => pObjectProps reg fuel toks []
    let (_, toks2) ← consumeTok toks1 ["\x7d"]
    pure (.objectExpr props, toks2)

def pObjectProps (reg : Registry) : Nat → List LexToken → List (ObjKey × AST) →
    Except JsError (List (ObjKey × AST) × List LexToken)
  | 0, _, _ => .error (.parseError "parser fuel exhausted")
  | fuel + 1, toks, props => do
    match peekTok toks [] with
    | none => .error (.parseError "Unexpected terminates.")
    | some tk => do
      let (key, toks1) ←
        if tk.identifier then do
          let (name, t) ← identifierNode toks
          pure (ObjKey.idKey name, t)
        else do
          let (n, t) ← constantNode toks
          match n with
          | .lit v => pure (ObjKey.litKey v, t)
          | _ => .error (.parseError "Unexpected. Expected constant")
      let (_, toks2) ← consumeTok toks1 [":"]
      let (value, toks3) ← pAssignment reg fuel toks2
      let props1 := props ++ [(key, value)]
      match expectTok toks3 [","] with
      | (some _, toks4) => pObjectProps reg fuel toks4 props1
      | (none, _) => pure (props1, toks3)

def pArray (reg : Registry) : Nat → List LexToken → Except JsError (AST × List LexToken)
  | 0, _ => .error (.parseError "parser fuel exhausted")
  | fuel + 1, toks => do
    let (els, toks1) ←
      match peekTok toks ["]"] with
      | some _ => pure (([] : List AST), toks)
      | none => pArrayElems reg fuel toks []
    let (_, toks2) ← consumeTok toks1 ["]"]
    pure (.arrayExpr els, toks2)

def pArrayElems (reg : Registry) : Nat → List LexToken → List AST →
    Except JsError (List AST × List LexToken)
  | 0, _, _ => .error (.parseError "parser fuel exhausted")
  | fuel + 1, toks, els =>
    match peekTok toks ["]"] with
    | some _ => pure (els, toks)
    | none => do
      let (a, toks1) ← pAssignment reg fuel toks
      let els1 := els ++ [a]
      match expectTok toks1 [","] with
      | (some _, toks2) => pArrayElems reg fuel toks2 els1
      | (none, _) => pure (els1, toks1)

end

/-- AST.ast: lex then parse a program; tokens left after the program are
discarded, as in the source. -/
def astBuild (reg : Registry) (t : List Char) : Except JsError AST := do
  let toks ← lex t
  let (a, _) ← pProgram reg (toks.length * 32 + 64) toks
  pure a

/-! ## Evaluator builder (parse.js, class ASTCompiler)

The source lowers the AST to a JavaScript source string and compiles it
with the host `Function` constructor.  The shallow embedding lowers the
AST to a Lean closure with the semantics of that generated code,
statement for statement; compile-time work (sandbox name checks, filter
resolution, call-context plumbing) happens while the closure is built
and can fail, runtime work happens when the closure runs.

Generated temporaries hold object references; the tree-valued store
tracks them as access paths rooted at the scope or the locals.  An
assignment through a temporary that is not rooted (for example the
result of a call) mutates only that temporary in the source and is
dropped here; no theorem below exercises such a program. -/

/-- Host function table: id, `this` argument, call arguments.  Host
functions are modelled as pure (none of the theorems calls a mutating
host function). -/
def FuncTable : Type := Nat → JSVal → List JSVal → Except JsError JSVal

/-- Compilation stage of the source compiler state. -/
inductive Stage where
  | mainS
  | inputsS
  | assignS
deriving DecidableEq

/-- Evaluation store: the scope and locals objects plus the value
parameter of the generated assign function. -/
structure St where
  s : JSVal
  l : JSVal := .undef
  v : JSVal := JSVal.undef

/-- The localsCheck test `l && l.hasOwnProperty(name)` of the generated
code. -/
def localsCheckB (st : St) (name : String) : Bool :=
  truthy st.l && hasOwn st.l name

/-- Call context recorded by recurse for callee and assignment-target
expressions: either an identifier (whose container is re-resolved at
use time by the generated `lcheck ? l : s`) or a member access (whose
container is the snapshot in a generated temporary). -/
inductive CtxInfo where
  | fromIdent (name : String) (noLocals : Bool)
  | fromMember (objVal : JSVal) (objPath : Option (Bool × List String))
      (key : JSVal) (computed : Bool)

/-- Result of running a lowered expression: its value, the store path of
the value when it is rooted in the scope or locals (for create-mode
writes), and the call context when the node supplies one. -/
structure RtRes where
  val : JSVal
  path : Option (Bool × List String) := none
  ctx : Option CtxInfo := none

/-- A lowered expression.  `hasCtx` is the compile-time fact that the
generated callContext strings are set (identifier and member nodes). -/
structure Cl where
  hasCtx : Bool := false
  run : FuncTable → St → Except JsError (RtRes × St)

/-- Nested store update along a key path; writing into a primitive is
the silent no-op of non-strict mode. -/
def setIn (root : JSVal) (keys : List String) (v : JSVal) : JSVal :=
  match keys with
  | [] => v
  | k :: ks =>
    match root with
    | .obj props => .obj (propStore props k (setIn ((propLookup props k).getD .undef) ks v))
    | other => other

/-- Write at a path rooted in the locals (`true`) or the scope. -/
def stWrite (st : St) (inLocals : Bool) (keys : List String) (v : JSVal) : St :=
  if inLocals then { st with l := setIn st.l keys v } else { st with s := setIn st.s keys v }

/-- Update one property of an object value in place. -/
def objSetProp (v : JSVal) (k : String) (x : JSVal) : JSVal :=
  match v with
  | .obj props => .obj (propStore props k x)
  | other => other

/-- The container denoted by a call context, re-resolved against the
current store for identifiers, snapshot for members. -/
def resolveCtxVal (st : St) : CtxInfo → JSVal
  | .fromIdent name noLocals =>
    if noLocals then st.s else if localsCheckB st name then st.l else st.s
  | .fromMember objVal _ _ _ => objVal

/-- The property key of a call context as a value. -/
def ctxKeyVal : CtxInfo → JSVal
  | .fromIdent name _ => .str name
  | .fromMember _ _ key _ => key

/-- The write performed by the generated assignment `(ctx).key = v`. -/
def writeThroughCtx (st : St) (c : CtxInfo) (v : JSVal) : Except JsError St :=
  match c with
  | .fromIdent name noLocals =>
    if !noLocals && localsCheckB st name then .ok (stWrite st true [name] v)
    else
      match st.s with
      | .undef => .error (.typeError ("Cannot set property " ++ name ++ " of undefined"))
      | .null => .error (.typeError ("Cannot set property " ++ name ++ " of null"))
      | .obj _ => .ok (stWrite st false [name] v)
      | _ => .ok st
  | .fromMember objVal objPath key _ =>
    match objVal with
    | .undef => .error (.typeError "Cannot set property of undefined")
    | .null => .error (.typeError "Cannot set property of null")
    | _ =>
      match objPath with
      | some (r, ks) => .ok (stWrite st r (ks ++ [jsToString key]) v)
      | none => .ok st

/-- Create-mode vivification `if (!((left)[k])) (left)[k] = \x7b\x7d` of
the generated member code: probing the missing member throws on an
`undefined` or `null` base; a created container is visible both through
the local snapshot and, when rooted, through the store. -/
def vivifyMember (ores : RtRes) (st : St) (k : String) : Except JsError (JSVal × St) := do
  let cur ← getPropE ores.val k
  if truthy cur then .ok (ores.val, st)
  else
    let newVal := objSetProp ores.val k (.obj [])
    match ores.path with
    | some (r, ks) => .ok (newVal, stWrite st r (ks ++ [k]) (.obj []))
    | none => .ok (newVal, st)

/-- Run a statement sequence (program bodies), keeping the last result. -/
def runSeqCl (ftab : FuncTable) : List Cl → St → RtRes → Except JsError (RtRes × St)
  | [], st, last => .ok (last, st)
  | c :: cs, st, _ => do
    let (r, st1) ← c.run ftab st
    runSeqCl ftab cs st1 r

/-- Run lowered expressions in order and collect their values. -/
def runListCl (ftab : FuncTable) : List Cl → St → Except JsError (List JSVal × St)
  | [], st => .ok ([], st)
  | c :: cs, st => do
    let (r, st1) ← c.run ftab st
    let (vs, st2) ← runListCl ftab cs st1
    .ok (r.val :: vs, st2)

/-- Run object-literal properties in order, collecting key-value pairs. -/
def runPropsCl (ftab : FuncTable) : List (String × Cl) → St →
    Except JsError (List (String × JSVal) × St)
  | [], st => .ok ([], st)
  | (k, c) :: cs, st => do
    let (r, st1) ← c.run ftab st
    let (kvs, st2) ← runPropsCl ftab cs st1
    .ok ((k, r.val) :: kvs, st2)

/-- The call tail of the generated code
`callee && ensureSafeObject(callee(ensureSafeObject(a1), ...))`:
a falsy callee short-circuits to the callee value itself and nothing is
invoked (argument guards included); a truthy callee has its arguments
guarded left to right, is invoked bound to the receiver, and has its
result guarded. -/
def applyCall (ftab : FuncTable) (calleeVal thisVal : JSVal) (argVals : List JSVal) :
    Except JsError JSVal :=
  if truthy calleeVal then do
    let checked ← argVals.mapM ensureSafeObject
    let result ←
      match calleeVal with
      | .fn id => ftab id thisVal checked
      | _ => .error (.typeError "Callee is not a function")
    ensureSafeObject result
  else .ok calleeVal

/-- Unary operator of the generated `op(isDefined(arg, 0))`. -/
def jsUnaryOp (op : String) (v : JSVal) : JSVal :=
  if op == "+" then .num (jsToNumber v)
  else if op == "-" then .num (jsNumNeg (jsToNumber v))
  else if op == "!" then .bool (!truthy v)
  else JSVal.undef

/-- Relational operators with the NaN rules of the host language. -/
def jsRelOp (op : String) (a b : JSVal) : Bool :=
  match toPrimitiveV a, toPrimitiveV b with
  | .str x, .str y =>
    if op == "<" then charListLt x.toList y.toList
    else if op == ">" then charListLt y.toList x.toList
    else if op == "<=" then !(charListLt y.toList x.toList)
    else !(charListLt x.toList y.toList)
  | x, y =>
    match jsToNumber x, jsToNumber y with
    | .nan, _ => false
    | _, .nan => false
    | na, nb =>
      if op == "<" then jsNumLt na nb
      else if op == ">" then jsNumLt nb na
      else if op == "<=" then !(jsNumLt nb na)
      else !(jsNumLt na nb)

/-- Binary operator dispatch of the generated `(a) op (b)`; `+` and `-`
first substitute `0` for `undefined` on both sides. -/
def jsBinaryOp (op : String) (a b : JSVal) : JSVal :=
  if op == "+" then jsAdd (isDefinedD a (.num (.val 0))) (isDefinedD b (.num (.val 0)))
  else if op == "-" then
    .num (jsNumSub (jsToNumber (isDefinedD a (.num (.val 0))))
                   (jsToNumber (isDefinedD b (.num (.val 0)))))
  else if op == "*" then .num (jsNumMul (jsToNumber a) (jsToNumber b))
  else if op == "/" then .num (jsNumDiv (jsToNumber a) (jsToNumber b))
  else if op == "%" then .num (jsNumMod (jsToNumber a) (jsToNumber b))
  else if op == "==" then .bool (jsLooseEqB a b)
  else if op == "!=" then .bool (!jsLooseEqB a b)
  else if op == "===" then .bool (jsStrictEqB a b)
  else if op == "!==" then .bool (!jsStrictEqB a b)
  else if op == "<" || op == ">" || op == "<=" || op == ">=" then .bool (jsRelOp op a b)
  else .undef

mutual

/-- ASTCompiler.recurse: build the closure for one node.  Compile-time
failures (sandbox member names, empty programs, non-assignable
assignment targets) surface here; the returned closure performs the
statements the source would generate, in generation order. -/
def compileRec (reg : Registry) (stage : Stage) (create : Bool) :
    AST → Except JsError Cl
  | .lit v => .ok { run := fun _ st => .ok ({ val := v }, st) }
  | .program body =>
    match body with
    | [] => .error (.compileError "Unknown ASTNode Type")
    | _ => do
      let cls ← compileList reg stage body
      .ok { run := fun ftab st => do
              let (r, st1) ← runSeqCl ftab cls st { val := .undef }
              .ok ({ val := r.val }, st1) }
  | .arrayExpr els => do
    let cls ← compileList reg stage els
    .ok { run := fun ftab st => do
            let (vs, st1) ← runListCl ftab cls st
            .ok ({ val := .arr vs }, st1) }
  | .objectExpr props => do
    let cls ← compileProps reg stage props
    .ok { run := fun ftab st => do
            let (kvs, st1) ← runPropsCl ftab cls st
            .ok ({ val := .obj (kvs.foldl (fun acc kv => propStore acc kv.1 kv.2) []) }, st1) }
  | .ident name => do
    ensureSafeMemberName name
    .ok { hasCtx := true,
          run := fun _ st => do
            let lcheck := stage ≠ .inputsS && localsCheckB st name
            let v0 := if lcheck then getProp st.l name else .undef
            let st1 :=
              if create && !lcheck && truthy st.s && !(hasOwn st.s name) then
                stWrite st false [name] (.obj [])
              else st
            let v1 := if !lcheck && truthy st1.s then getProp st1.s name else v0
            let _ ← ensureSafeObject v1
            .ok ({ val := v1,
                   path := some (lcheck, [name]),
                   ctx := some (.fromIdent name (stage = .inputsS)) }, st1) }
  | .thisExpr =>
    .ok { run := fun _ st => .ok ({ val := st.s, path := some (false, []) }, st) }
  | .memberNon object propName => do
    let ocl ← compileRec reg stage create object
    ensureSafeMemberName propName
    .ok { hasCtx := true,
          run := fun ftab st => do
            let (ores, st1) ← ocl.run ftab st
            let (objVal, st2) ←
              if create then vivifyMember ores st1 propName
              else pure (ores.val, st1)
            let v ←
              if truthy objVal then ensureSafeObject (getProp objVal propName)
              else pure .undef
            .ok ({ val := v,
                   path := ores.path.map (fun p => (p.1, p.2 ++ [propName])),
                   ctx := some (.fromMember objVal ores.path (.str propName) false) }, st2) }
  | .memberComp object property => do
    let ocl ← compileRec reg stage create object
    let pcl ← compileRec reg stage false property
    .ok { hasCtx := true,
          run := fun ftab st => do
            let (ores, st1) ← ocl.run ftab st
            let (pres, st2) ← pcl.run ftab st1
            ensureSafeMemberNameV pres.val
            let k := jsToString pres.val
            let (objVal, st3) ←
              if create then vivifyMember ores st2 k
              else pure (ores.val, st2)
            let v ←
              if truthy objVal then ensureSafeObject (getProp objVal k)
              else pure .undef
            .ok ({ val := v,
                   path := ores.path.map (fun p => (p.1, p.2 ++ [k])),
                   ctx := some (.fromMember objVal ores.path pres.val true) }, st3) }
  | .call callee args => do
    let ccl ← compileRec reg stage false callee
    let acls ← compileList reg stage args
    .ok { run := fun ftab st => do
            let (cres, st1) ← ccl.run ftab st
            let (argVals, st2) ← runListCl ftab acls st1
            if ccl.hasCtx then
              match cres.ctx with
              | some c => do
                let ctxVal := resolveCtxVal st2 c
                let _ ← ensureSafeObject ctxVal
                let calleeVal ← getPropE ctxVal (jsToString (ctxKeyVal c))
                let _ ← ensureSafeFunction calleeVal
                let v ← applyCall ftab calleeVal ctxVal argVals
                .ok ({ val := v }, st2)
              | none => .error (.compileError "internal: missing call context")
            else do
              let calleeVal := cres.val
              let _ ← ensureSafeFunction calleeVal
              let v ← applyCall ftab calleeVal .undef argVals
              .ok ({ val := v }, st2) }
  | .filterExpr calleeName _ args => do
    let acls ← compileList reg stage args
    let fd := reg calleeName
    .ok { run := fun ftab st => do
            let (argVals, st1) ← runListCl ftab acls st
            match fd with
            | none => .error (.typeError "Filter is not a function")
            | some f => do
              let v ← f.fn argVals
              .ok ({ val := v }, st1) }
  | .assign left right => do
    let lcl ← compileRec reg stage true left
    if !lcl.hasCtx then
      .error (.compileError "Unable to get leftContext info")
    else do
      let rcl ← compileRec reg stage false right
      .ok { run := fun ftab st => do
              let (lres, st1) ← lcl.run ftab st
              let (rres, st2) ← rcl.run ftab st1
              let rv ← ensureSafeObject rres.val
              match lres.ctx with
              | some c => do
                let st3 ← writeThroughCtx st2 c rv
                .ok ({ val := rv }, st3)
              | none => .error (.compileError "internal: missing call context") }
  | .unary op argument => do
    let acl ← compileRec reg stage false argument
    .ok { run := fun ftab st => do
            let (r, st1) ← acl.run ftab st
            .ok ({ val := jsUnaryOp op (isDefinedD r.val (.num (.val 0))) }, st1) }
  | .binary op left right => do
    let lcl ← compileRec reg stage false left
    let rcl ← compileRec reg stage false right
    .ok { run := fun ftab st => do
            let (lr, st1) ← lcl.run ftab st
            let (rr, st2) ← rcl.run ftab st1
            .ok ({ val := jsBinaryOp op lr.val rr.val }, st2) }
  | .logical op left right => do
    let lcl ← compileRec reg stage false left
    let rcl ← compileRec reg stage false right
    .ok { run := fun ftab st => do
            let (lr, st1) ← lcl.run ftab st
            let (rr, st2) ← rcl.run ftab st1
            let v :=
              if op == "&&" then (if truthy lr.val then rr.val else lr.val)
              else (if truthy lr.val then lr.val else rr.val)
            .ok ({ val := v }, st2) }
  | .conditional test cons alt => do
    let tcl ← compileRec reg stage false test
    let ccl ← compileRec reg stage false cons
    let acl ← compileRec reg stage false alt
    .ok { run := fun ftab st => do
            let (tr, st1) ← tcl.run ftab st
            let (cr, st2) ← ccl.run ftab st1
            let (ar, st3) ← acl.run ftab st2
            .ok ({ val := if truthy tr.val then cr.val else ar.val }, st3) }
  | .ngValueParameter =>
    .ok { run := fun _ st => .ok ({ val := st.v }, st) }

def compileList (reg : Registry) (stage : Stage) : List AST → Except JsError (List Cl)
  | [] => .ok []
  | a :: as => do
    let c ← compileRec reg stage false a
    let cs ← compileList reg stage as
    .ok (c :: cs)

def compileProps (reg : Registry) (stage : Stage) :
    List (ObjKey × AST) → Except JsError (List (String × Cl))
  | [] => .ok []
  | (k, vAst) :: ps => do
    let keyStr :=
      match k with
      | .idKey n => n
      | .litKey v => jsToString v
    let c ← compileRec reg stage false vAst
    let cs ← compileProps reg stage ps
    .ok ((keyStr, c) :: cs)

end

/-! ## Compiled evaluator and the parse entry point (parse.js) -/

/-- The compiled evaluator.  `run` is the generated `fn(s, l)` (the
final store is returned so store mutation stays observable); `inputs`
models the `fn.inputs` array, absent exactly when empty; `assignRun`
models `fn.assign`, `none` for the no-op stub attached to non-assignable
expressions. -/
structure ParsedFunction where
  run : FuncTable → JSVal → JSVal → Except JsError (JSVal × St)
  inputs : List (FuncTable → JSVal → Except JsError (JSVal × St)) := []
  assignRun : Option (FuncTable → JSVal → JSVal → JSVal → Except JsError (JSVal × St)) := none
  literal : Bool := false
  constant : Bool := false
  oneTime : Bool := false

/-- Compile the input-stage closures, one per member of the input set. -/
def compileInputs (reg : Registry) : List AST → Except JsError (List Cl)
  | [] => .ok []
  | a :: as => do
    let c ← compileRec reg .inputsS false a
    let cs ← compileInputs reg as
    .ok (c :: cs)

/-- ASTCompiler.compile on a built AST: inputs stage, assign stage, main
stage, in the order of the source, then attachment of the literal and
constant attributes. -/
def compileASTFn (reg : Registry) (ast : AST) : Except JsError ParsedFunction := do
  let inputCls ← compileInputs reg (getInputs ast)
  let assignCl ←
    match assignableAST ast with
    | some a => do
      let c ← compileRec reg .assignS false a
      pure (some c)
    | none => pure none
  let mainCl ← compileRec reg .mainS false ast
  pure
    { run := fun ftab s l => do
        let (r, st1) ← mainCl.run ftab { s := s, l := l }
        pure (r.val, st1)
      inputs := inputCls.map (fun c ftab s => do
        let (r, st1) ← c.run ftab { s := s, l := .undef }
        pure (r.val, st1))
      assignRun := assignCl.map (fun c ftab s v l => do
        let (r, st1) ← c.run ftab { s := s, l := l, v := v }
        pure (r.val, st1))
      literal := isLiteralAST ast
      constant := constantB ast }

/-- Parser.parse / ASTCompiler.compile on text. -/
def compileText (reg : Registry) (t : List Char) : Except JsError ParsedFunction := do
  let ast ← astBuild reg t
  compileASTFn reg ast

/-- The lodash noop returned for arguments that are neither strings nor
functions: every invocation yields `undefined` (and no attribute of a
compiled evaluator is attached). -/
def noopParsedFunction : ParsedFunction :=
  { run := fun _ s l => .ok (.undef, { s := s, l := l }) }

/-- Argument to the parse entry point: a string, an existing evaluator
function, or anything else (`undefined`, `null`, numbers, objects). -/
inductive ParseArg where
  | strArg (t : List Char)
  | fnArg (f : ParsedFunction)
  | otherArg

/-- The parse entry point.  A leading double colon on a string argument
marks one-time binding and is stripped before lexing; a function
argument is returned unchanged; anything else becomes the noop. -/
def parse (reg : Registry) : ParseArg → Except JsError ParsedFunction
  | .strArg t =>
    match t with
    | ':' :: ':' :: rest => do
      let pf ← compileText reg rest
      pure { pf with oneTime := true }
    | _ => do
      let pf ← compileText reg t
      pure { pf with oneTime := false }
  | .fnArg f => .ok f
  | .otherArg => .ok noopParsedFunction

/-! ## Scope digest (modelled from the spec)

The scope implementation (`src/scope.js`) is not among the sources, only
its test suite; the definitions of this section are therefore written
from specification section 4.6.2 (digest algorithm): a TTL loop bounded
at ten iterations, each iteration draining the async queue and then
walking the watcher list in order, comparing each watch value against
the stored `last` with a NaN-equals-NaN exception (deep comparison when
`byValue`), dispatching listeners on change, short-circuiting a pass at
a clean `lastDirty` watcher, and failing with the digest-limit error
when the TTL is exhausted.  Listeners and watch functions are modelled
as total transformers of a user state `σ` (the caught-and-logged
exception path adds nothing to the claim under verification), so the
repeat condition reduces to pass dirtiness. -/

/-- Watch-value comparison: strict equality with NaN equal to NaN, or
structural (deep) comparison for by-value watchers. -/
def watchValEq (byValue : Bool) (a b : JSVal) : Bool :=
  if byValue then jsEqB a b
  else jsStrictEqB a b ||
    (match a, b with | .num .nan, .num .nan => true | _, _ => false)

/-- A registered watcher; `last := none` is the initial never-seen
sentinel, making the first comparison dirty with the listener receiving
the new value as both arguments. -/
structure Watcher (σ : Type) where
  watchFn : σ → JSVal
  listenerFn : JSVal → JSVal → σ → σ
  byValue : Bool := false
  last : Option JSVal := none

/-- Scope digest state: the user-visible state, the ordered watcher
list, the pending async queue and the index of the last dirty watcher. -/
structure ScopeState (σ : Type) where
  user : σ
  watchers : List (Watcher σ)
  asyncQueue : List (σ → σ) := []
  lastDirty : Option Nat := none

/-- One watcher pass, walking the list in order from index `i`:
evaluate, compare with `last`, dispatch the listener on change, and
stop early at a clean `lastDirty` watcher.  Returns the new user state,
the updated watcher list, the pass dirtiness and the new `lastDirty`. -/
def digestPassGo {σ : Type} (user : σ) (ws : List (Watcher σ)) (i : Nat)
    (lastDirty : Option Nat) (dirty : Bool) :
    σ × List (Watcher σ) × Bool × Option Nat :=
  match ws with
  | [] => (user, [], dirty, lastDirty)
  | w :: rest =>
    let newVal := w.watchFn user
    match w.last with
    | some old =>
      if watchValEq w.byValue newVal old then
        if lastDirty == some i then (user, w :: rest, dirty, lastDirty)
        else
          let (u, ws1, d, ld) := digestPassGo user rest (i + 1) lastDirty dirty
          (u, w :: ws1, d, ld)
      else
        let u1 := w.listenerFn newVal old user
        let (u, ws1, d, ld) := digestPassGo u1 rest (i + 1) (some i) true
        (u, { w with last := some newVal } :: ws1, d, ld)
    | none =>
      let u1 := w.listenerFn newVal newVal user
      let (u, ws1, d, ld) := digestPassGo u1 rest (i + 1) (some i) true
      (u, { w with last := some newVal } :: ws1, d, ld)

/-- Drain the async queue in order. -/
def drainAsync {σ : Type} (user : σ) (q : List (σ → σ)) : σ :=
  q.foldl (fun u f => f u) user

/-- Outcome of a digest: normal termination or the digest-limit error.
Both carry the scope state (the source rethrows after restoring the
phase, leaving the scope usable) and the number of passes performed. -/
inductive DigestOutcome (σ : Type) where
  | finished (st : ScopeState σ) (passes : Nat)
  | limitError (msg : String) (st : ScopeState σ) (passes : Nat)

/-- The TTL loop of digest: drain the async queue, run a pass, repeat
while the pass was dirty, fail when the TTL is exhausted. -/
def digestLoop {σ : Type} : Nat → Nat → ScopeState σ → DigestOutcome σ
  | 0, passes, st => .limitError "10 $digest() iterations reached" st passes
  | fuel + 1, passes, st =>
    let u1 := drainAsync st.user st.asyncQueue
    let (u2, ws2, dirty, ld2) := digestPassGo u1 st.watchers 0 st.lastDirty false
    let st2 : ScopeState σ :=
      { user := u2, watchers := ws2, asyncQueue := [], lastDirty := ld2 }
    if dirty then digestLoop fuel (passes + 1) st2
    else .finished st2 (passes + 1)

/-- Scope digest with the TTL of ten. -/
def digest {σ : Type} (st : ScopeState σ) : DigestOutcome σ :=
  digestLoop 10 0 st

/-! ## Soundness of the structural equality functions -/

mutual

theorem jsEqB_iff : ∀ (a b : JSVal), jsEqB a b = true ↔ a = b
  | .undef, b => by cases b <;> simp [jsEqB]
  | .null, b => by cases b <;> simp [jsEqB]
  | .bool x, b => by cases b <;> simp [jsEqB]
  | .num x, b => by cases b <;> simp [jsEqB]
  | .str x, b => by cases b <;> simp [jsEqB]
  | .arr x, b => by
    cases b <;> simp [jsEqB]
    exact jsEqListB_iff x _
  | .obj x, b => by
    cases b <;> simp [jsEqB]
    exact jsEqPropsB_iff x _
  | .fn x, b => by cases b <;> simp [jsEqB]

theorem jsEqListB_iff : ∀ (as bs : List JSVal), jsEqListB as bs = true ↔ as = bs
  | [], bs => by cases bs <;> simp [jsEqListB]
  | a :: as, bs => by
    cases bs with
    | nil => simp [jsEqListB]
    | cons b bs => simp [jsEqListB, jsEqB_iff a b, jsEqListB_iff as bs]

theorem jsEqPropsB_iff : ∀ (as bs : List (String × JSVal)),
    jsEqPropsB as bs = true ↔ as = bs
  | [], bs => by cases bs <;> simp [jsEqPropsB]
  | (k1, v1) :: as, bs => by
    cases bs with
    | nil => simp [jsEqPropsB]
    | cons b bs =>
      obtain ⟨k2, v2⟩ := b
      simp [jsEqPropsB, jsEqB_iff v1 v2, jsEqPropsB_iff as bs]

end

instance : DecidableEq JSVal := fun a b => decidable_of_iff _ (jsEqB_iff a b)

theorem objKeyBeq_iff (a b : ObjKey) : objKeyBeq a b = true ↔ a = b := by
  cases a <;> cases b <;> simp [objKeyBeq, jsEqB_iff]

instance : DecidableEq ObjKey := fun a b => decidable_of_iff _ (objKeyBeq_iff a b)

set_option maxHeartbeats 2000000 in
mutual

theorem astBeq_iff : ∀ (a b : AST), astBeq a b = true ↔ a = b
  | .program x, b => by
    cases b <;> simp [astBeq]
    exact astListBeq_iff x _
  | .lit x, b => by cases b <;> simp [astBeq, jsEqB_iff]
  | .arrayExpr x, b => by
    cases b <;> simp [astBeq]
    exact astListBeq_iff x _
  | .objectExpr x, b => by
    cases b <;> simp [astBeq]
    exact astPropsBeq_iff x _
  | .ident x, b => by cases b <;> simp [astBeq]
  | .thisExpr, b => by cases b <;> simp [astBeq]
  | .memberNon o p, b => by
    cases b <;> simp [astBeq, astBeq_iff o]
  | .memberComp o p, b => by
    cases b <;> simp [astBeq, astBeq_iff o, astBeq_iff p]
  | .call c a, b => by
    cases b <;> simp [astBeq, astBeq_iff c]
    intro _
    exact astListBeq_iff a _
  | .filterExpr n s a, b => by
    cases b <;> simp [astBeq, and_assoc]
    intro _ _
    exact astListBeq_iff a _
  | .assign l r, b => by
    cases b <;> simp [astBeq, astBeq_iff l, astBeq_iff r]
  | .unary o a, b => by
    cases b <;> simp [astBeq, astBeq_iff a]
  | .binary o l r, b => by
    cases b <;> simp [astBeq, astBeq_iff l, astBeq_iff r, and_assoc]
  | .logical o l r, b => by
    cases b <;> simp [astBeq, astBeq_iff l, astBeq_iff r, and_assoc]
  | .conditional t c a, b => by
    cases b <;> simp [astBeq, astBeq_iff t, astBeq_iff c, astBeq_iff a, and_assoc]
  | .ngValueParameter, b => by cases b <;> simp [astBeq]

theorem astListBeq_iff : ∀ (as bs : List AST), astListBeq as bs = true ↔ as = bs
  | [], bs => by cases bs <;> simp [astListBeq]
  | a :: as, bs => by
    cases bs with
    | nil => simp [astListBeq]
    | cons b bs => simp [astListBeq, astBeq_iff a b, astListBeq_iff as bs]

theorem astPropsBeq_iff : ∀ (as bs : List (ObjKey × AST)),
    astPropsBeq as bs = true ↔ as = bs
  | [], bs => by cases bs <;> simp [astPropsBeq]
  | (k1, v1) :: as, bs => by
    cases bs with
    | nil => simp [astPropsBeq]
    | cons b bs =>
      obtain ⟨k2, v2⟩ := b
      simp [astPropsBeq, objKeyBeq_iff k1 k2, astBeq_iff v1 v2, astPropsBeq_iff as bs]

end

instance : DecidableEq AST := fun a b => decidable_of_iff _ (astBeq_iff a b)

/-! ## Helper lemmas -/

theorem allConstant_watchNonConstant :
    ∀ els : List AST, allConstantB els = true → watchNonConstant els = []
  | [], _ => rfl
  | a :: as, h => by
    simp only [allConstantB, Bool.and_eq_true] at h
    simp [watchNonConstant, h.1, allConstant_watchNonConstant as h.2]

theorem propsConstant_watchProps :
    ∀ props : List (ObjKey × AST), propsConstantB props = true → watchProps props = []
  | [], _ => rfl
  | (k, v) :: ps, h => by
    simp only [propsConstantB, Bool.and_eq_true] at h
    simp [watchProps, h.1, propsConstant_watchProps ps h.2]

theorem singleton_cond_iff (l : List AST) (e : AST) :
    ((l.length == 1) &&
      (match l.head? with | some c => astBeq c e | none => false)) = true ↔ l = [e] := by
  cases l with
  | nil => simp
  | cons a t =>
    cases t with
    | nil => simp [astBeq_iff]
    | cons b t2 => simp

/-- Run a text through the parse entry point and evaluate the compiled
function, keeping only the value. -/
def runText (reg : Registry) (ftab : FuncTable) (s l : JSVal) (t : List Char) :
    Except JsError JSVal := do
  let pf ← parse reg (.strArg t)
  let (v, _) ← pf.run ftab s l
  pure v

/-! ## Claim theorems -/

/-- C6: for a Program node, the input-set analysis returns the empty
list when the body does not have exactly one element; for a single body
element `e` it returns `e.toWatch`, except that it returns the empty
list when `e.toWatch` is exactly the one-element list containing `e`
itself. -/
theorem getInputs_program (body : List AST) :
    (body.length ≠ 1 → getInputs (AST.program body) = []) ∧
    (∀ e, body = [e] →
      getInputs (AST.program body) = if toWatch e = [e] then [] else toWatch e) := by
  constructor
  · intro h
    match body with
    | [] => rfl
    | [e] => exact absurd rfl h
    | a :: b :: rest => rfl
  · rintro e rfl
    show getInputs (AST.program [e]) = _
    by_cases hw : toWatch e = [e]
    · have hc : ((toWatch e).length == 1 &&
          (match (toWatch e).head? with | some c => astBeq c e | none => false)) = true :=
        (singleton_cond_iff _ _).mpr hw
      simp [getInputs, hc, hw, astBeq_iff]
    · have hc : ((toWatch e).length == 1 &&
          (match (toWatch e).head? with | some c => astBeq c e | none => false)) = false := by
        by_contra hne
        exact hw ((singleton_cond_iff _ _).mp (by simpa using Bool.of_not_eq_false hne))
      simp [getInputs, hc, hw]

/-- C6 witness at a concrete program: the single identifier statement
watches itself, so the input set collapses to the empty list. -/
theorem getInputs_program_witness :
    ([AST.ident "a"] = [AST.ident "a"]) ∧
    getInputs (AST.program [AST.ident "a"]) =
      (if toWatch (AST.ident "a") = [AST.ident "a"] then [] else toWatch (AST.ident "a")) :=
  ⟨rfl, (getInputs_program [AST.ident "a"]).2 (AST.ident "a") rfl⟩

/-- C10: the parse entry point returns a function argument unchanged,
and for any argument that is neither a string nor a function it returns
the noop evaluator, which yields `undefined` on every scope and locals
pair. -/
theorem parse_nonstring (reg : Registry) (f : ParsedFunction) :
    parse reg (.fnArg f) = .ok f ∧
    parse reg .otherArg = .ok noopParsedFunction ∧
    (∀ ftab s l, noopParsedFunction.run ftab s l = .ok (.undef, { s := s, l := l })) :=
  ⟨rfl, rfl, fun _ _ _ => rfl⟩

/-- Bound and dichotomy of the digest TTL loop. -/
theorem digestLoop_cases {σ : Type} :
    ∀ (fuel passes : Nat) (st : ScopeState σ),
    (∃ st2 n, digestLoop fuel passes st = .finished st2 n ∧
      passes < n ∧ n ≤ passes + fuel) ∨
    (∃ st2, digestLoop fuel passes st =
      .limitError "10 $digest() iterations reached" st2 (passes + fuel))
  | 0, passes, st => by
    right
    exact ⟨st, rfl⟩
  | fuel + 1, passes, st => by
    simp only [digestLoop]
    rcases hp : digestPassGo (drainAsync st.user st.asyncQueue) st.watchers 0 st.lastDirty false
      with ⟨u2, ws2, dirty, ld2⟩
    cases dirty with
    | true =>
      simp only [if_true]
      rcases digestLoop_cases fuel (passes + 1) _ with ⟨st2, n, he, h1, h2⟩ | ⟨st2, he⟩
      · exact Or.inl ⟨st2, n, he, by omega, by omega⟩
      · exact Or.inr ⟨st2, by rw [he]; congr 1; omega⟩
    | false =>
      simp only [if_false]
      exact Or.inl ⟨_, passes + 1, rfl, by omega, by omega⟩

/-- C8: a digest performs at most ten outer iterations: it either
terminates normally after at most ten passes (the last pass having found
every watcher clean) or yields the digest-limit outcome after exactly
ten passes, carrying the still-usable scope state. -/
theorem digest_ttl {σ : Type} (st : ScopeState σ) :
    (∃ st2 n, digest st = .finished st2 n ∧ 1 ≤ n ∧ n ≤ 10) ∨
    (∃ st2, digest st = .limitError "10 $digest() iterations reached" st2 10) := by
  rcases digestLoop_cases 10 0 st with ⟨st2, n, he, h1, h2⟩ | ⟨st2, he⟩
  · exact Or.inl ⟨st2, n, he, by omega, by omega⟩
  · exact Or.inr ⟨st2, he⟩

/-- C1 counterexample: the parser builds this Logical node from the text
`true && false`; both children are constant, so the node is constant,
yet its toWatch is the one-element list containing the node itself, not
the empty list. -/
theorem constant_toWatch_counterexample :
    astBuild (fun _ => none) "true && false".toList =
      .ok (.program [.logical "&&" (.lit (.bool true)) (.lit (.bool false))]) ∧
    constantB (.logical "&&" (.lit (.bool true)) (.lit (.bool false))) = true ∧
    toWatch (.logical "&&" (.lit (.bool true)) (.lit (.bool false))) ≠ [] := by
  refine ⟨by rfl, rfl, by simp [toWatch]⟩

/-- C1 amended: the implication `constant = true → toWatch = []` holds
for Literal, Array and Object nodes (and vacuously for the never-
constant kinds), but Logical, Conditional, non-computed Member and
Assignment nodes whose children are all constant are constant with
`toWatch = [the node itself]`, a one-element list. -/
theorem constant_toWatch_refined :
    (∀ v, constantB (AST.lit v) = true ∧ toWatch (AST.lit v) = []) ∧
    (∀ els, constantB (AST.arrayExpr els) = true → toWatch (AST.arrayExpr els) = []) ∧
    (∀ props, constantB (AST.objectExpr props) = true →
      toWatch (AST.objectExpr props) = []) ∧
    (∀ op l r, constantB l = true → constantB r = true →
      constantB (AST.logical op l r) = true ∧
      toWatch (AST.logical op l r) = [AST.logical op l r]) ∧
    (∀ t c a, constantB t = true → constantB c = true → constantB a = true →
      constantB (AST.conditional t c a) = true ∧
      toWatch (AST.conditional t c a) = [AST.conditional t c a]) ∧
    (∀ o p, constantB o = true →
      constantB (AST.memberNon o p) = true ∧
      toWatch (AST.memberNon o p) = [AST.memberNon o p]) ∧
    (∀ l r, constantB l = true → constantB r = true →
      constantB (AST.assign l r) = true ∧
      toWatch (AST.assign l r) = [AST.assign l r]) := by
  refine ⟨fun v => ⟨rfl, rfl⟩, ?_, ?_, ?_, ?_, ?_, ?_⟩
  · intro els h
    simp only [constantB] at h
    simp [toWatch, allConstant_watchNonConstant els h]
  · intro props h
    simp only [constantB] at h
    simp [toWatch, propsConstant_watchProps props h]
  · intro op l r hl hr
    exact ⟨by simp [constantB, hl, hr], rfl⟩
  · intro t c a ht hc ha
    exact ⟨by simp [constantB, ht, hc, ha], rfl⟩
  · intro o p ho
    exact ⟨by simp [constantB, ho], rfl⟩
  · intro l r hl hr
    exact ⟨by simp [constantB, hl, hr], rfl⟩

/-- C1 amended witness: concrete constant children for the Logical
component. -/
theorem constant_toWatch_refined_witness :
    constantB (AST.lit (.bool true)) = true ∧
    constantB (AST.lit (.bool false)) = true ∧
    (constantB (AST.logical "&&" (AST.lit (.bool true)) (AST.lit (.bool false))) = true ∧
      toWatch (AST.logical "&&" (AST.lit (.bool true)) (AST.lit (.bool false))) =
        [AST.logical "&&" (AST.lit (.bool true)) (AST.lit (.bool false))]) :=
  ⟨rfl, rfl, constant_toWatch_refined.2.2.2.1 "&&" _ _ rfl rfl⟩

/-- C2 counterexample: in `f()` with scope `\x7bf: 0\x7d` the callee
resolves to the falsy value `0`, and the compiled call yields `0`, not
`undefined` (the generated tail is `callee && ...`, which returns the
falsy callee value itself). -/
theorem call_falsy_counterexample :
    runText (fun _ => none) (fun _ _ _ => .ok .undef)
      (.obj [("f", .num (.val 0))]) JSVal.undef "f()".toList = .ok (.num (.val 0)) ∧
    JSVal.num (.val 0) ≠ JSVal.undef := by
  exact ⟨by rfl, by simp⟩

/-- C2 amended: whenever the callee expression of a compiled call
evaluates (without throwing) to a falsy value, the generated call tail
`callee && ensureSafeObject(callee(...))` yields that falsy value
itself — equal to `undefined` exactly when the callee was `undefined` —
and nothing is invoked: the outcome does not depend on the host function
table and no argument guard runs. -/
theorem applyCall_falsy (ftab : FuncTable) (callee thisVal : JSVal)
    (args : List JSVal) (h : truthy callee = false) :
    applyCall ftab callee thisVal args = .ok callee := by
  simp [applyCall, h]

/-- C2 amended witness: callee value `0`. -/
theorem applyCall_falsy_witness :
    truthy (.num (.val 0)) = false ∧
    applyCall (fun _ _ _ => .ok .undef) (.num (.val 0)) .undef [] =
      .ok (.num (.val 0)) :=
  ⟨by rfl, applyCall_falsy _ _ _ _ (by rfl)⟩

/-- C3 counterexample: lexing `1e` does not fail; it produces the number
token `1` followed by the identifier token `e` (the `e` is only folded
into a number when an exponent operator follows it). -/
theorem lex_1e_counterexample :
    (lex "1e".toList).map (fun toks => toks.map (fun tk => (tk.text, tk.identifier)))
      = .ok [("1", false), ("e", true)] := by
  rfl

theorem charLower_digit {d : Char} (hd : isNumberCh d = true) : charLower d = d := by
  simp only [isNumberCh, Bool.and_eq_true, decide_eq_true_eq] at hd
  have h9 : d < 'A' := lt_of_le_of_lt hd.2 (by decide)
  simp only [charLower]
  rw [if_neg]
  simp only [Bool.and_eq_true, decide_eq_true_eq]
  rintro ⟨hA, _⟩
  exact absurd hA (not_le.mpr h9)

theorem digit_ne_dot {d : Char} (hd : isNumberCh d = true) : (d == '.') = false := by
  simp only [isNumberCh, Bool.and_eq_true, decide_eq_true_eq] at hd
  have hlt : '.' < d := lt_of_lt_of_le (by decide) hd.1
  simp only [beq_eq_false_iff_ne, ne_eq]
  rintro rfl
  exact absurd hlt (lt_irrefl _)

/-- Inside readNumber, a digit, then `e`, then a sign not followed by a
digit reaches the Invalid exponent throw on the third iteration. -/
theorem readNumberLoop_expsign (d sg : Char) (suffix : List Char)
    (hd : isNumberCh d = true)
    (hsg : sg = '+' ∨ sg = '-')
    (hsuf : match suffix with | [] => True | c :: _ => isNumberCh c = false) :
    ∀ fuel, readNumberLoop (d :: 'e' :: sg :: suffix) (fuel + 3) 0 [] =
      .error (.lexError "Invalid exponent") := by
  intro fuel
  have hcl := charLower_digit hd
  have hdot := digit_ne_dot hd
  simp only [show fuel + 3 = (fuel + 2) + 1 from rfl]
  rw [readNumberLoop]
  rw [dif_pos (by simp)]
  simp only [List.getElem_cons_zero, hcl, hdot, hd, Bool.false_or, if_true]
  simp only [show fuel + 2 = (fuel + 1) + 1 from rfl]
  rw [readNumberLoop]
  rw [dif_pos (by simp)]
  simp only [List.getElem_cons_succ, List.getElem_cons_zero]
  have he1 : (charLower 'e' == '.' || isNumberCh (charLower 'e')) = false := by decide
  rw [if_neg (by simp [he1])]
  have hpeek1 : lexPeek (d :: 'e' :: sg :: suffix) 1 1 = some (String.mk [sg]) := by
    simp only [lexPeek]
    rw [if_neg (by simp; omega)]
    simp
  rw [hpeek1]
  have hexp : optIsExpOperator (some (String.mk [sg])) = true := by
    rcases hsg with rfl | rfl <;> rfl
  have hce : charLower 'e' = 'e' := rfl
  rw [if_pos (by simp [hexp, hce])]
  rw [readNumberLoop]
  rw [dif_pos (by simp)]
  simp only [List.getElem_cons_succ, List.getElem_cons_zero]
  have hsgl : charLower sg = sg := by rcases hsg with rfl | rfl <;> rfl
  have hsgd : (sg == '.' || isNumberCh sg) = false := by rcases hsg with rfl | rfl <;> rfl
  have hsge : (sg == 'e') = false := by rcases hsg with rfl | rfl <;> rfl
  have hsgx : isExpOperator sg = true := by rcases hsg with rfl | rfl <;> rfl
  simp only [hce, hsgl, show (0 + 1 + 1 : Nat) = 2 from rfl]
  rw [if_neg (by simp [hsgd])]
  rw [if_neg (by simp [hsge])]
  cases suffix with
  | nil =>
    have hpeek2 : lexPeek (d :: 'e' :: sg :: []) 2 1 = some (String.mk []) := by
      simp only [lexPeek]
      rw [if_neg (by simp)]
      simp
    rw [hpeek2]
    simp [hsge, hsgx, optTruthy, optIsNumber]
  | cons c rest =>
    simp only at hsuf
    have hpeek2 : lexPeek (d :: 'e' :: sg :: c :: rest) 2 1 = some (String.mk [c]) := by
      simp only [lexPeek]
      rw [if_neg (by simp; omega)]
      simp
    rw [hpeek2]
    simp [hsge, hsgx, optTruthy, optIsNumber, hsuf]

/-- C3 amended: for every digit `d` and sign character, an input whose
number has its exponent marker followed by a sign that is not followed
by a digit (end of input, or any non-digit) fails lexing with the
Invalid exponent error.  (When no sign or digit follows the `e` at all,
the `e` is not part of the number and no error is raised, see the
counterexample for `1e`.) -/
theorem lex_exponent_sign_error (d sg : Char) (suffix : List Char)
    (hd : isNumberCh d = true)
    (hsg : sg = '+' ∨ sg = '-')
    (hsuf : match suffix with | [] => True | c :: _ => isNumberCh c = false) :
    lex (d :: 'e' :: sg :: suffix) = .error (.lexError "Invalid exponent") := by
  have herr := readNumberLoop_expsign d sg suffix hd hsg hsuf (suffix.length + 1)
  show lexLoop _ ((d :: 'e' :: sg :: suffix).length + 1) 0 [] = _
  have hlen : (d :: 'e' :: sg :: suffix).length + 1 = (suffix.length + 3) + 1 := by simp
  rw [hlen, lexLoop]
  rw [dif_pos (by simp)]
  simp only [List.getElem_cons_zero, hd, Bool.true_or, if_true]
  simp only [readNumber, hlen]
  rw [show suffix.length + 3 + 1 = suffix.length + 1 + 3 from by omega]
  rw [herr]
  rfl

/-- C3 amended witness: the input `1e+` fails lexing. -/
theorem lex_exponent_sign_error_witness :
    isNumberCh '1' = true ∧ ('+' = '+' ∨ '+' = '-') ∧
    lex ['1', 'e', '+'] = .error (.lexError "Invalid exponent") :=
  ⟨by decide, Or.inl rfl,
    lex_exponent_sign_error '1' '+' [] (by decide) (Or.inl rfl) trivial⟩

/-- C4 counterexample: for an expression that itself begins with the
one-time prefix, such as `::x`, parsing the expression alone already
yields `oneTime = true`, not the claimed `false` (the entry point
strips one leading `::` wherever it appears). -/
theorem parse_oneTime_counterexample :
    (match parse (fun _ => none) (.strArg "::x".toList) with
     | .ok pf => pf.oneTime
     | .error _ => false) = true := by
  rfl

/-- C4 amended: for every expression text that does not itself begin
with `::`, prepending `::` gives the same compiled function with
`oneTime = true`, the bare text gives it with `oneTime = false`, and
the two evaluators agree on every function table, scope and locals. -/
theorem parse_oneTime (reg : Registry) (expr : List Char)
    (h : expr.take 2 ≠ [':', ':']) :
    parse reg (.strArg (':' :: ':' :: expr)) =
      (compileText reg expr).map (fun pf => { pf with oneTime := true }) ∧
    parse reg (.strArg expr) =
      (compileText reg expr).map (fun pf => { pf with oneTime := false }) ∧
    (∀ pf1 pf2 ftab s l,
      parse reg (.strArg (':' :: ':' :: expr)) = .ok pf1 →
      parse reg (.strArg expr) = .ok pf2 →
      pf1.oneTime = true ∧ pf2.oneTime = false ∧ pf1.run ftab s l = pf2.run ftab s l) := by
  have h1 : parse reg (.strArg (':' :: ':' :: expr)) =
      (compileText reg expr).map (fun pf => { pf with oneTime := true }) := by
    show (do
      let pf ← compileText reg expr
      pure { pf with oneTime := true } : Except JsError ParsedFunction) = _
    cases hc : compileText reg expr <;> simp [hc, Except.map]
  have h2 : parse reg (.strArg expr) =
      (compileText reg expr).map (fun pf => { pf with oneTime := false }) := by
    unfold parse
    split
    · rename_i t heq
      injection heq with ht
      subst ht
      split
      · exact absurd rfl h
      · cases hc : compileText reg expr <;> simp [hc, Except.map]
    · rename_i f heq
      exact ParseArg.noConfusion heq
    · rename_i heq
      exact ParseArg.noConfusion heq
  refine ⟨h1, h2, ?_⟩
  intro pf1 pf2 ftab s l e1 e2
  rw [h1] at e1
  rw [h2] at e2
  cases hc : compileText reg expr with
  | error e =>
    rw [hc] at e1
    simp [Except.map] at e1
  | ok pf =>
    rw [hc] at e1 e2
    simp only [Except.map, Except.ok.injEq] at e1 e2
    rw [← e1, ← e2]
    exact ⟨rfl, rfl, rfl⟩

/-- C4 amended witness at the text `x`. -/
theorem parse_oneTime_witness :
    "x".toList.take 2 ≠ [':', ':'] ∧
    parse (fun _ => none) (.strArg (':' :: ':' :: "x".toList)) =
      (compileText (fun _ => none) "x".toList).map (fun pf => { pf with oneTime := true }) :=
  ⟨by decide, (parse_oneTime (fun _ => none) "x".toList (by decide)).1⟩

/-- The value an identifier resolves to at a given stage: locals first
(main and assign stages only), then the scope when truthy, else
`undefined`. -/
def identResolveS (stage : Stage) (st : St) (name : String) : JSVal :=
  if stage ≠ Stage.inputsS && localsCheckB st name then getProp st.l name
  else if truthy st.s then getProp st.s name else JSVal.undef

/-- Behaviour of the lowered identifier closure (outside create mode). -/
theorem compileRec_ident (reg : Registry) (stage : Stage) (name : String)
    (h : disallowedMemberNames.contains name = false) :
    ∃ cl, compileRec reg stage false (.ident name) = .ok cl ∧ cl.hasCtx = true ∧
      ∀ ftab st, cl.run ftab st =
        (ensureSafeObject (identResolveS stage st name)).bind
          (fun _ => .ok ({ val := identResolveS stage st name,
                           path := some (stage ≠ Stage.inputsS && localsCheckB st name, [name]),
                           ctx := some (.fromIdent name (stage = Stage.inputsS)) }, st)) := by
  unfold compileRec
  rw [show ensureSafeMemberName name = .ok () from by simp only [ensureSafeMemberName, h]; rfl]
  refine ⟨_, rfl, rfl, ?_⟩
  intro ftab st
  cases hlc : (stage ≠ Stage.inputsS && localsCheckB st name : Bool) <;>
    cases hts : truthy st.s <;>
      simp only [identResolveS, hlc, hts, Bool.not_false, Bool.not_true, Bool.true_and,
        Bool.false_and, Bool.and_true, Bool.and_false, Bool.and_self, if_true, if_false,
        Bool.false_eq_true, ite_false, ite_true] <;>
      rfl

/-- The object guard either passes its argument through or raises a
security error. -/
theorem ensureSafeObject_cases (v : JSVal) :
    ensureSafeObject v = .ok v ∨ ∃ m, ensureSafeObject v = .error (.securityError m) := by
  unfold ensureSafeObject
  split
  · split
    · exact Or.inr ⟨_, rfl⟩
    · split
      · exact Or.inr ⟨_, rfl⟩
      · split
        · exact Or.inr ⟨_, rfl⟩
        · split
          · exact Or.inr ⟨_, rfl⟩
          · exact Or.inl rfl
  · exact Or.inl rfl

/-- Security-error discriminator on evaluation outcomes. -/
def isSecurityErrorB {α : Type} : Except JsError α → Bool
  | .error (.securityError _) => true
  | _ => false

/-- Compile a node at a stage and run the closure. -/
def compileRunS (reg : Registry) (stage : Stage) (ast : AST) (ftab : FuncTable)
    (st : St) : Except JsError (RtRes × St) :=
  match compileRec reg stage false ast with
  | .ok cl => cl.run ftab st
  | .error e => .error e

theorem excBind_ok {α β : Type} (a : α) (f : α → Except JsError β) :
    (Except.ok a : Except JsError α) >>= f = f a := rfl

theorem excBind_err {α β : Type} (e : JsError) (f : α → Except JsError β) :
    (Except.error e : Except JsError α) >>= f = .error e := rfl

/-- Lexing a run of identifier characters consumes it entirely when it
ends the input. -/
theorem readIdentifierLoop_all :
    ∀ (name pre acc : List Char) (fuel : Nat),
    (∀ c ∈ name, (isIdentifierCh c || isNumberCh c) = true) →
    name.length < fuel →
    readIdentifierLoop (pre ++ name) fuel pre.length acc =
      (name.reverse ++ acc, pre.length + name.length)
  | [], pre, acc, fuel, _, hf => by
    match fuel, hf with
    | f + 1, _ =>
      simp [readIdentifierLoop]
  | c :: rest, pre, acc, fuel, hid, hf => by
    match fuel, hf with
    | f + 1, hf =>
      rw [readIdentifierLoop]
      rw [dif_pos (by simp only [List.length_append, List.length_cons]; omega)]
      rw [List.getElem_append_right (Nat.le_refl _)]
      simp only [Nat.sub_self, List.getElem_cons_zero]
      rw [if_pos (hid c (by simp))]
      have := readIdentifierLoop_all rest (pre ++ [c]) (c :: acc) f
        (fun x hx => hid x (by simp [hx])) (by simp at hf ⊢; omega)
      simp only [List.append_assoc, List.singleton_append, List.length_append,
        List.length_cons, List.length_nil] at this
      rw [this]
      simp
      omega

/-- An identifier first character is not a digit, a dot, a quote,
punctuation or whitespace (the lexer branch dispatch facts). -/
theorem identCh_not_special (c : Char) (hc : isIdentifierCh c = true) :
    isNumberCh c = false ∧ (c == '.') = false ∧ (c == '\'') = false ∧
    (c == '"') = false ∧ isPunctuationCh c = false ∧ isWhiteSpace c = false := by
  simp only [isIdentifierCh, Bool.or_eq_true, Bool.and_eq_true, decide_eq_true_eq,
    beq_iff_eq] at hc
  refine ⟨?_, ?_, ?_, ?_, ?_, ?_⟩
  · by_contra h
    rw [Bool.not_eq_false] at h
    simp only [isNumberCh, Bool.and_eq_true, decide_eq_true_eq] at h
    rcases hc with ((⟨h1, h2⟩ | ⟨h1, h2⟩) | rfl) | rfl
    · exact absurd (le_trans h1 h.2) (by decide)
    · exact absurd (le_trans h1 h.2) (by decide)
    · exact absurd h (by decide)
    · exact absurd h (by decide)
  · simp only [beq_eq_false_iff_ne, ne_eq]
    rintro rfl
    exact absurd hc (by decide)
  · simp only [beq_eq_false_iff_ne, ne_eq]
    rintro rfl
    exact absurd hc (by decide)
  · simp only [beq_eq_false_iff_ne, ne_eq]
    rintro rfl
    exact absurd hc (by decide)
  · by_contra h
    rw [Bool.not_eq_false] at h
    simp only [isPunctuationCh, decide_eq_true_eq] at h
    have hmem : c ∈ ['[', ']', ',', '\x7b', '\x7d', ':', '.', '(', ')', '?', ';'] := h
    simp only [List.mem_cons, List.not_mem_nil, or_false] at hmem
    rcases hmem with rfl | rfl | rfl | rfl | rfl | rfl | rfl | rfl | rfl | rfl | rfl <;>
      exact absurd hc (by decide)
  · by_contra h
    rw [Bool.not_eq_false] at h
    simp only [isWhiteSpace, Bool.or_eq_true, beq_iff_eq] at h
    rcases h with ((((rfl | rfl) | rfl) | rfl) | rfl) | rfl <;>
      exact absurd hc (by decide)

theorem boolCondFalse {b : Bool} (h : b = false) : ¬(b = true) := by
  rw [h]
  exact Bool.false_ne_true

theorem lex_pipe_name (c : Char) (rest : List Char)
    (hc : isIdentifierCh c = true)
    (hall : ∀ x ∈ c :: rest, (isIdentifierCh x || isNumberCh x) = true) :
    lex ('a' :: ' ' :: '|' :: ' ' :: c :: rest) =
      .ok [{ text := "a", identifier := true }, { text := "|" },
           { text := String.mk (c :: rest), identifier := true }] := by
  obtain ⟨hcn, hcdot, hcq1, hcq2, hcp, hcw⟩ := identCh_not_special c hc
  have hp21 : lexPeek ('a' :: ' ' :: '|' :: ' ' :: c :: rest) 2 1 =
      some (String.mk [' ']) := by
    rw [lexPeek, if_neg (by simp only [List.length_cons]; push_cast; omega)]
    rfl
  have hp22 : lexPeek ('a' :: ' ' :: '|' :: ' ' :: c :: rest) 2 2 =
      some (String.mk [' ', c]) := by
    rw [lexPeek, if_neg (by simp only [List.length_cons]; push_cast; omega)]
    rfl
  have hg4 : ∀ (h : 4 < ('a' :: ' ' :: '|' :: ' ' :: c :: rest).length),
      ('a' :: ' ' :: '|' :: ' ' :: c :: rest)[4] = c := fun _ => rfl
  have hloop : readIdentifierLoop ('a' :: ' ' :: '|' :: ' ' :: c :: rest)
      (('a' :: ' ' :: '|' :: ' ' :: c :: rest).length + 1) 0 [] = (['a'], 1) := by
    rw [show ('a' :: ' ' :: '|' :: ' ' :: c :: rest).length + 1 =
      (rest.length + 5) + 1 by simp]
    rw [readIdentifierLoop]
    rw [dif_pos (by simp only [List.length_cons]; omega)]
    rw [if_pos (by rfl)]
    nth_rewrite 1 [show rest.length + 5 = (rest.length + 4) + 1 from rfl]
    rw [readIdentifierLoop]
    rw [dif_pos (by simp only [List.length_cons]; omega)]
    rw [if_neg (boolCondFalse (by rfl))]
    rfl
  have hra : readIdentifier ('a' :: ' ' :: '|' :: ' ' :: c :: rest) 0 =
      ({ text := String.mk ['a'], identifier := true }, 1) := by
    unfold readIdentifier
    rw [hloop]
    rfl
  have hrc : readIdentifier ('a' :: ' ' :: '|' :: ' ' :: c :: rest) 4 =
      ({ text := String.mk (c :: rest), identifier := true }, rest.length + 5) := by
    unfold readIdentifier
    have hstep := readIdentifierLoop_all (c :: rest) ['a', ' ', '|', ' '] []
      (('a' :: ' ' :: '|' :: ' ' :: c :: rest).length + 1) hall
      (by simp only [List.length_cons]; omega)
    rw [show ((['a', ' ', '|', ' '] : List Char).length) = 4 from rfl] at hstep
    simp only [List.cons_append, List.nil_append] at hstep
    rw [hstep]
    simp only [List.append_nil, List.reverse_reverse, List.length_cons, Prod.mk.injEq]
    exact ⟨trivial, by omega⟩
  show lexLoop ('a' :: ' ' :: '|' :: ' ' :: c :: rest)
    (('a' :: ' ' :: '|' :: ' ' :: c :: rest).length + 1) 0 [] = _
  rw [show ('a' :: ' ' :: '|' :: ' ' :: c :: rest).length + 1 =
    (rest.length + 5) + 1 by simp]
  -- position 0: the identifier a
  rw [lexLoop]
  rw [dif_pos (by simp only [List.length_cons]; omega)]
  rw [if_neg (boolCondFalse (by rfl))]
  rw [if_neg (boolCondFalse (by rfl))]
  rw [if_neg (boolCondFalse (by rfl))]
  rw [if_pos (by rfl)]
  rw [hra]
  show lexLoop ('a' :: ' ' :: '|' :: ' ' :: c :: rest) (rest.length + 5) 1
    [{ text := String.mk ['a'], identifier := true }] = _
  -- position 1: whitespace
  rw [show rest.length + 5 = (rest.length + 4) + 1 from rfl, lexLoop]
  rw [dif_pos (by simp only [List.length_cons]; omega)]
  rw [if_neg (boolCondFalse (by rfl))]
  rw [if_neg (boolCondFalse (by rfl))]
  rw [if_neg (boolCondFalse (by rfl))]
  rw [if_neg (boolCondFalse (by rfl))]
  rw [if_pos (by rfl)]
  show lexLoop ('a' :: ' ' :: '|' :: ' ' :: c :: rest) (rest.length + 4) 2
    [{ text := String.mk ['a'], identifier := true }] = _
  -- position 2: the pipe operator
  rw [show rest.length + 4 = (rest.length + 3) + 1 from rfl, lexLoop]
  rw [dif_pos (by simp only [List.length_cons]; omega)]
  rw [if_neg (boolCondFalse (by rfl))]
  rw [if_neg (boolCondFalse (by rfl))]
  rw [if_neg (boolCondFalse (by rfl))]
  rw [if_neg (boolCondFalse (by rfl))]
  rw [if_neg (boolCondFalse (by rfl))]
  rw [hp21, hp22]
  show lexLoop ('a' :: ' ' :: '|' :: ' ' :: c :: rest) (rest.length + 3) 3
    [{ text := String.mk ['a'], identifier := true }, { text := String.mk ['|'] }] = _
  -- position 3: whitespace
  rw [show rest.length + 3 = (rest.length + 2) + 1 from rfl, lexLoop]
  rw [dif_pos (by simp only [List.length_cons]; omega)]
  rw [if_neg (boolCondFalse (by rfl))]
  rw [if_neg (boolCondFalse (by rfl))]
  rw [if_neg (boolCondFalse (by rfl))]
  rw [if_neg (boolCondFalse (by rfl))]
  rw [if_pos (by rfl)]
  show lexLoop ('a' :: ' ' :: '|' :: ' ' :: c :: rest) (rest.length + 2) 4
    [{ text := String.mk ['a'], identifier := true }, { text := String.mk ['|'] }] = _
  -- position 4: the filter name, with a symbolic first character
  rw [show rest.length + 2 = (rest.length + 1) + 1 from rfl, lexLoop]
  rw [dif_pos (by simp only [List.length_cons]; omega)]
  simp only [hg4]
  rw [if_neg (boolCondFalse (by simp [hcn, hcdot]))]
  rw [if_neg (boolCondFalse (by simp [hcq1, hcq2]))]
  rw [if_neg (boolCondFalse (by simp [hcp]))]
  rw [if_pos hc]
  rw [hrc]
  show lexLoop ('a' :: ' ' :: '|' :: ' ' :: c :: rest) (rest.length + 1) (rest.length + 5)
    [{ text := String.mk ['a'], identifier := true }, { text := String.mk ['|'] },
     { text := String.mk (c :: rest), identifier := true }] = _
  -- past the end of the input: the loop returns the accumulated tokens
  rw [lexLoop]
  rw [dif_neg (by simp only [List.length_cons]; omega)]

/-- C5: identifier resolution.  In the main stage the generated code
consults the locals first — exactly when the locals object is truthy and
owns the name — then the scope when truthy, else yields `undefined`; the
resolved value passes through the ensureSafeObject guard.  In the inputs
stage the locals check is compiled to the constant false, so the locals
are skipped entirely. -/
theorem identifier_resolution (reg : Registry) (name : String) (ftab : FuncTable) (st : St)
    (h : disallowedMemberNames.contains name = false) :
    compileRunS reg .mainS (.ident name) ftab st =
      (ensureSafeObject (if truthy st.l && hasOwn st.l name then getProp st.l name
        else if truthy st.s then getProp st.s name else JSVal.undef)).bind
        (fun _ => .ok ({ val := (if truthy st.l && hasOwn st.l name then getProp st.l name
                                 else if truthy st.s then getProp st.s name else JSVal.undef),
                         path := some (truthy st.l && hasOwn st.l name, [name]),
                         ctx := some (.fromIdent name false) }, st)) ∧
    compileRunS reg .inputsS (.ident name) ftab st =
      (ensureSafeObject (if truthy st.s then getProp st.s name else JSVal.undef)).bind
        (fun _ => .ok ({ val := (if truthy st.s then getProp st.s name else JSVal.undef),
                         path := some (false, [name]),
                         ctx := some (.fromIdent name true) }, st)) := by
  obtain ⟨clM, hcM, _, hrM⟩ := compileRec_ident reg .mainS name h
  obtain ⟨clI, hcI, _, hrI⟩ := compileRec_ident reg .inputsS name h
  constructor
  · unfold compileRunS
    rw [hcM]
    show clM.run ftab st = _
    rw [hrM ftab st]
    simp only [identResolveS, localsCheckB,
      show (Stage.mainS ≠ Stage.inputsS) = True from by simp,
      show (Stage.mainS = Stage.inputsS) = False from by simp,
      decide_True, decide_False, Bool.true_and]
  · unfold compileRunS
    rw [hcI]
    show clI.run ftab st = _
    rw [hrI ftab st]
    simp only [identResolveS, localsCheckB,
      show (Stage.inputsS ≠ Stage.inputsS) = False from by simp,
      show (Stage.inputsS = Stage.inputsS) = True from by simp,
      decide_True, decide_False, Bool.false_and, Bool.false_or, if_false, ite_false]
    simp

/-- C5 witness: the identifier `x` on empty scope and locals. -/
theorem identifier_resolution_witness :
    disallowedMemberNames.contains "x" = false ∧
    compileRunS (fun _ => none) .mainS (.ident "x") (fun _ _ _ => .ok .undef)
        { s := .undef, l := .undef } =
      (ensureSafeObject (if truthy JSVal.undef && hasOwn JSVal.undef "x"
          then getProp JSVal.undef "x"
          else if truthy JSVal.undef then getProp JSVal.undef "x" else JSVal.undef)).bind
        (fun _ => .ok ({ val := (if truthy JSVal.undef && hasOwn JSVal.undef "x"
                                 then getProp JSVal.undef "x"
                                 else if truthy JSVal.undef then getProp JSVal.undef "x"
                                 else JSVal.undef),
                         path := some (truthy JSVal.undef && hasOwn JSVal.undef "x", ["x"]),
                         ctx := some (.fromIdent "x" false) }, { s := .undef, l := .undef })) :=
  ⟨by decide,
    (identifier_resolution (fun _ => none) "x" (fun _ _ _ => .ok .undef)
      { s := .undef, l := .undef } (by decide)).1⟩

/-- C7: each blacklisted name is rejected with a security error on every
access path: as a bare identifier and as a non-computed member name at
compile time, and as a computed member key (here a string literal
property evaluating to the name) at run time, for every function table
and store. -/
theorem blacklisted_member_access (reg : Registry) (name : String)
    (h : disallowedMemberNames.contains name = true) :
    compileRec reg .mainS false (.ident name) =
      .error (.securityError "Attempting to access a disallowed field") ∧
    compileRec reg .mainS false (.memberNon (.ident "a") name) =
      .error (.securityError "Attempting to access a disallowed field") ∧
    (∀ ftab st, isSecurityErrorB
      (compileRunS reg .mainS (.memberComp (.ident "a") (.lit (.str name))) ftab st) = true) := by
  have hname : ensureSafeMemberName name =
      .error (.securityError "Attempting to access a disallowed field") := by
    simp only [ensureSafeMemberName, h]
    rfl
  obtain ⟨clA, hcA, _, hrA⟩ := compileRec_ident reg .mainS "a" (by decide)
  have hlit : compileRec reg Stage.mainS false (AST.lit (JSVal.str name)) =
      .ok { run := fun _ st => .ok ({ val := JSVal.str name }, st) } := rfl
  refine ⟨?_, ?_, ?_⟩
  · unfold compileRec
    rw [hname]
    rfl
  · unfold compileRec
    rw [hcA]
    simp only [excBind_ok]
    rw [hname]
    rfl
  · intro ftab st
    unfold compileRunS
    unfold compileRec
    rw [hcA, hlit]
    simp only [excBind_ok]
    rcases ensureSafeObject_cases (identResolveS .mainS st "a") with hv | ⟨m, hv⟩
    · simp only [hrA ftab st, hv, excBind_ok, excBind_err, ensureSafeMemberNameV, hname]
      rfl
    · simp only [hrA ftab st, hv, excBind_ok, excBind_err]
      rfl

/-- C7 witness: the name `constructor` as a bare identifier. -/
theorem blacklisted_member_access_witness :
    disallowedMemberNames.contains "constructor" = true ∧
    compileRec (fun _ => none) .mainS false (.ident "constructor") =
      .error (.securityError "Attempting to access a disallowed field") :=
  ⟨by decide, (blacklisted_member_access (fun _ => none) "constructor" (by decide)).1⟩

/-- C9: an unregistered filter name makes the Filter-node construction
throw (the statefulness check dereferences the undefined registry
result), and for every registry and every identifier filter name missing
from it, the parse entry point on a pipe expression with that name
propagates the error during compilation, returning no evaluator. -/
theorem unregistered_filter_errors (reg : Registry) (c : Char) (rest : List Char)
    (hc : isIdentifierCh c = true)
    (hall : ∀ x ∈ c :: rest, (isIdentifierCh x || isNumberCh x) = true)
    (h : reg (String.mk (c :: rest)) = none) :
    (∀ name args, reg name = none →
      mkFilterNode reg name args =
        .error (.typeError "Cannot read property $stateful of undefined")) ∧
    parse reg (.strArg ('a' :: ' ' :: '|' :: ' ' :: c :: rest)) =
      .error (.typeError "Cannot read property $stateful of undefined") := by
  refine ⟨fun name args hn => by simp [mkFilterNode, hn], ?_⟩
  have hmk : ∀ args, mkFilterNode reg (String.mk (c :: rest)) args =
      .error (.typeError "Cannot read property $stateful of undefined") := by
    intro args
    unfold mkFilterNode
    rw [h]
  have hprog : pProgram reg 160
      [{ text := "a", identifier := true }, { text := "|" },
       { text := String.mk (c :: rest), identifier := true }] =
      .error (.typeError "Cannot read property $stateful of undefined") := by
    obtain ⟨args, K1, K2, hK⟩ : ∃ (args : List AST)
        (K1 : AST → Except JsError (AST × List LexToken))
        (K2 : AST × List LexToken → Except JsError (AST × List LexToken)),
        pProgram reg 160
          [{ text := "a", identifier := true }, { text := "|" },
           { text := String.mk (c :: rest), identifier := true }] =
          (mkFilterNode reg (String.mk (c :: rest)) args >>= K1) >>= K2 :=
      ⟨_, _, _, rfl⟩
    rw [hK, hmk, excBind_err, excBind_err]
  show (do
      let pf ← compileText reg ('a' :: ' ' :: '|' :: ' ' :: c :: rest)
      pure { pf with oneTime := false } : Except JsError ParsedFunction) = _
  unfold compileText astBuild
  rw [lex_pipe_name c rest hc hall]
  simp only [excBind_ok]
  rw [show (([{ text := "a", identifier := true }, { text := "|" },
      { text := String.mk (c :: rest), identifier := true }] : List LexToken).length * 32 + 64)
      = 160 from rfl]
  rw [hprog]
  simp only [excBind_err]

/-- C9 witness: the empty registry and the one-character filter name f,
in the expression a | f. -/
theorem unregistered_filter_errors_witness :
    isIdentifierCh 'f' = true ∧
    (fun _ : String => (none : Option FilterDef)) (String.mk ['f']) = none ∧
    parse (fun _ => none) (.strArg ('a' :: ' ' :: '|' :: ' ' :: 'f' :: [])) =
      .error (.typeError "Cannot read property $stateful of undefined") :=
  ⟨by decide, rfl,
   (unregistered_filter_errors (fun _ => none) 'f' [] (by decide)
      (by decide) rfl).2⟩
